import Mathlib

set_option maxRecDepth 8000

/-!
Shallow embedding of the `serbian-transliteration` library
(`src/index.ts`). Strings are modelled as `List Char` (the source iterates
code points; every character the library manipulates lies in the Basic
Multilingual Plane, so UTF-16 indices and code-point indices coincide).
Fallible code is modelled with `Except`; the transliteration scan loop,
which is not structurally terminating in the source, is modelled with
explicit fuel, `none` standing for a run that never finishes.
-/

namespace SerbianTransliteration

/-- Zero-width non-joiner (`ZWNJ`), used to keep an excepted digraph apart. -/
def zwnj : Char := '‌'

/-- First character of the reserved placeholder prefix (private-use code point). -/
def puaChar : Char := ''

/-- The reserved placeholder prefix `SKIP_PREFIX` of the source. -/
def skipPre : List Char := "__SKIP__".data

/-- The Cyrillic-to-Latin character table of the source (`cyrillic2LatinMap`),
as an association list in source order. -/
def cyr2latPairs : List (Char × String) := [
  ('а', "a"),
  ('б', "b"),
  ('в', "v"),
  ('г', "g"),
  ('д', "d"),
  ('ђ', "đ"),
  ('е', "e"),
  ('ж', "ž"),
  ('з', "z"),
  ('и', "i"),
  ('ј', "j"),
  ('к', "k"),
  ('л', "l"),
  ('љ', "lj"),
  ('м', "m"),
  ('н', "n"),
  ('њ', "nj"),
  ('о', "o"),
  ('п', "p"),
  ('р', "r"),
  ('с', "s"),
  ('т', "t"),
  ('ћ', "ć"),
  ('у', "u"),
  ('ф', "f"),
  ('х', "h"),
  ('ц', "c"),
  ('ч', "č"),
  ('џ', "dž"),
  ('ш', "š"),
  ('А', "A"),
  ('Б', "B"),
  ('В', "V"),
  ('Г', "G"),
  ('Д', "D"),
  ('Ђ', "Đ"),
  ('Е', "E"),
  ('Ж', "Ž"),
  ('З', "Z"),
  ('И', "I"),
  ('Ј', "J"),
  ('К', "K"),
  ('Л', "L"),
  ('Љ', "Lj"),
  ('М', "M"),
  ('Н', "N"),
  ('Њ', "Nj"),
  ('О', "O"),
  ('П', "P"),
  ('Р', "R"),
  ('С', "S"),
  ('Т', "T"),
  ('Ћ', "Ć"),
  ('У', "U"),
  ('Ф', "F"),
  ('Х', "H"),
  ('Ц', "C"),
  ('Ч', "Č"),
  ('Џ', "Dž"),
  ('Ш', "Š")]

/-- The Latin-to-Cyrillic character table of the source (`latin2CyrillicMap`). -/
def lat2cyrPairs : List (Char × Char) := [
  ('a', 'а'),
  ('b', 'б'),
  ('v', 'в'),
  ('g', 'г'),
  ('d', 'д'),
  ('đ', 'ђ'),
  ('e', 'е'),
  ('ž', 'ж'),
  ('z', 'з'),
  ('i', 'и'),
  ('j', 'ј'),
  ('k', 'к'),
  ('l', 'л'),
  ('m', 'м'),
  ('n', 'н'),
  ('o', 'о'),
  ('p', 'п'),
  ('r', 'р'),
  ('s', 'с'),
  ('t', 'т'),
  ('ć', 'ћ'),
  ('u', 'у'),
  ('f', 'ф'),
  ('h', 'х'),
  ('c', 'ц'),
  ('č', 'ч'),
  ('š', 'ш'),
  ('A', 'А'),
  ('B', 'Б'),
  ('V', 'В'),
  ('G', 'Г'),
  ('D', 'Д'),
  ('Đ', 'Ђ'),
  ('E', 'Е'),
  ('Ž', 'Ж'),
  ('Z', 'З'),
  ('I', 'И'),
  ('J', 'Ј'),
  ('K', 'К'),
  ('L', 'Л'),
  ('M', 'М'),
  ('N', 'Н'),
  ('O', 'О'),
  ('P', 'П'),
  ('R', 'Р'),
  ('S', 'С'),
  ('T', 'Т'),
  ('Ć', 'Ћ'),
  ('U', 'У'),
  ('F', 'Ф'),
  ('H', 'Х'),
  ('C', 'Ц'),
  ('Č', 'Ч'),
  ('Š', 'Ш')]

/-- The 'dj' entry of `digraphExceptionPatterns`: case-insensitive literal
word patterns, in source order (transcribed byte-for-byte, including the one
pattern that contains a Cyrillic letter). -/
def djPats : List String := [
  "adjektiv",
  "adjunkt",
  "bazdje",
  "bdje",
  "bezdje",
  "blijedje",
  "bludje",
  "bridjе",
  "vidjel",
  "vidjet",
  "vindjakn",
  "višenedje",
  "vrijedje",
  "gdje",
  "gudje",
  "gdjir",
  "daždje",
  "dvonedje",
  "devetonedje",
  "desetonedje",
  "djb",
  "djeva",
  "djevi",
  "djevo",
  "djed",
  "djejstv",
  "djel",
  "djenem",
  "djeneš",
  "djenu",
  "djet",
  "djec",
  "dječ",
  "djuar",
  "djubison",
  "djubouz",
  "djuer",
  "djui",
  "djuks",
  "djulej",
  "djumars",
  "djupont",
  "djurant",
  "djusenberi",
  "djuharst",
  "djuherst",
  "dovdje",
  "dogrdje",
  "dodjel",
  "drvodje",
  "drugdje",
  "elektrosnabdje",
  "žudje",
  "zabludje",
  "zavidje",
  "zavrijedje",
  "zagudje",
  "zadjev",
  "zadjen",
  "zalebdje",
  "zaludje",
  "zaodje",
  "zapodje",
  "zarudje",
  "zasjedje",
  "zasmrdje",
  "zastidje",
  "zaštedje",
  "zdje",
  "zlodje",
  "igdje",
  "izbledje",
  "izblijedje",
  "izvidje",
  "izdjejst",
  "izdjelj",
  "izludje",
  "isprdje",
  "jednonedje",
  "kojegdje",
  "kudjelj",
  "lebdje",
  "ludjel",
  "ludjet",
  "makfadjen",
  "marmadjuk",
  "međudjel",
  "nadjaha",
  "nadjača",
  "nadjeb",
  "nadjev",
  "nadjenul",
  "nadjenuo",
  "nadjenut",
  "negdje",
  "nedjel",
  "nadjunač",
  "nenadjača",
  "nenavidje",
  "neodje",
  "nepodjarm",
  "nerazdje",
  "nigdje",
  "obdjel",
  "obnevidje",
  "ovdje",
  "odjav",
  "odjah",
  "odjaš",
  "odjeb",
  "odjev",
  "odjed",
  "odjezd",
  "odjek",
  "odjel",
  "odjen",
  "odjeć",
  "odjec",
  "odjur",
  "odsjedje",
  "ondje",
  "opredje",
  "osijedje",
  "osmonedje",
  "pardju",
  "perdju",
  "petonedje",
  "poblijedje",
  "povidje",
  "pogdjegdje",
  "pogdje",
  "podjakn",
  "podjamč",
  "podjemč",
  "podjar",
  "podjeb",
  "podjebrad",
  "podjed",
  "podjezič",
  "podjel",
  "podjen",
  "podjet",
  "pododjel",
  "pozavidje",
  "poludje",
  "poljodjel",
  "ponegdje",
  "ponedjelj",
  "porazdje",
  "posijedje",
  "posjedje",
  "postidje",
  "potpodjel",
  "poštedje",
  "pradjed",
  "prdje",
  "preblijedje",
  "previdje",
  "predvidje",
  "predjel",
  "preodjen",
  "preraspodje",
  "presjedje",
  "pridjev",
  "pridjen",
  "prismrdje",
  "prištedje",
  "probdje",
  "problijedje",
  "prodjen",
  "prolebdje",
  "prosijedje",
  "prosjedje",
  "protivdjel",
  "prošlonedje",
  "razvidje",
  "razdjev",
  "razdjel",
  "razodje",
  "raspodje",
  "rasprdje",
  "remekdjel",
  "rudjen",
  "rudjet",
  "sadje",
  "svagdje",
  "svidje",
  "svugdje",
  "sedmonedjelj",
  "sijedje",
  "sjedje",
  "smrdje",
  "snabdje",
  "snovidje",
  "starosjedje",
  "stidje",
  "studje",
  "sudjel",
  "tronedje",
  "ublijedje",
  "uvidje",
  "udjel",
  "udjen",
  "uprdje",
  "usidjel",
  "usjedje",
  "usmrdje",
  "uštedje",
  "cjelonedje",
  "četvoronedje",
  "čukundjed",
  "šestonedjelj",
  "štedje",
  "štogdje",
  "šukundjed"]

/-- The 'dž' entry of `digraphExceptionPatterns`: case-insensitive literal
word patterns, in source order (transcribed byte-for-byte, including the one
pattern that contains a Cyrillic letter). -/
def dzPats : List String := [
  "feldžandarm",
  "nadžanj",
  "nadždrel",
  "nadžel",
  "nadžeo",
  "nadžet",
  "nadživ",
  "nadžinj",
  "nadžnj",
  "nadžrec",
  "nadžup",
  "odžali",
  "odžari",
  "odžel",
  "odžive",
  "odživljava",
  "odžubor",
  "odžvaka",
  "odžval",
  "odžvać",
  "podžanr",
  "podžel",
  "podže",
  "podžig",
  "podžiz",
  "podžil",
  "podžnje",
  "podžupan",
  "predželu",
  "predživot"]

/-- The 'nj' entry of `digraphExceptionPatterns`: case-insensitive literal
word patterns, in source order (transcribed byte-for-byte, including the one
pattern that contains a Cyrillic letter). -/
def njPats : List String := [
  "anjon",
  "injaric",
  "injekc",
  "injekt",
  "injicira",
  "injurij",
  "kenjon",
  "konjug",
  "konjunk",
  "nekonjug",
  "nekonjunk",
  "ssrnj",
  "tanjug",
  "vanjezičk"]


/-- Map lookup in `cyrillic2LatinMap` (JavaScript object property access). -/
def cyr2lat (c : Char) : Option (List Char) :=
  (List.lookup c cyr2latPairs).map String.data

/-- Map lookup in `latin2CyrillicMap`. -/
def lat2cyr (c : Char) : Option Char := List.lookup c lat2cyrPairs

/-- Embeds `toLatin` of the source: per character, the mapped value when present,
else the character unchanged; empty (falsy) input short-circuits. -/
def toLatin (text : List Char) : List Char :=
  if text = [] then []
  else text.foldl (fun result c => result ++ ((cyr2lat c).getD [c])) []

/-- Embeds `countCyrillicAndLatinLetters` of the source (the `else if` makes the
Latin branch fire only on characters outside the Cyrillic map). -/
def countCyrillicAndLatinLetters (text : List Char) : Nat × Nat :=
  text.foldl (fun n c =>
    if (cyr2lat c).isSome then (n.1 + 1, n.2)
    else if (lat2cyr c).isSome then (n.1, n.2 + 1)
    else n) (0, 0)

/-- Embeds `isCyrillic` of the source. -/
def isCyrillic (text : List Char) : Bool :=
  if text = [] then false
  else decide ((countCyrillicAndLatinLetters text).2 < (countCyrillicAndLatinLetters text).1)

/-- Embeds `isLatin` of the source. -/
def isLatin (text : List Char) : Bool :=
  if text = [] then false
  else decide ((countCyrillicAndLatinLetters text).1 < (countCyrillicAndLatinLetters text).2)

/-- Case folding on the repertoire the library manipulates (ASCII plus the
Serbian Latin letters with diacritics); models the regex `i` flag there. -/
def lowerChar (c : Char) : Char :=
  if c = 'Ž' then 'ž' else if c = 'Š' then 'š' else if c = 'Đ' then 'đ'
  else if c = 'Č' then 'č' else if c = 'Ć' then 'ć'
  else if 'A' ≤ c ∧ c ≤ 'Z' then Char.ofNat (c.toNat + 32) else c

/-- Character comparison, case-insensitive when `ci` is set. -/
def charEqCI (ci : Bool) (a b : Char) : Bool :=
  if ci then lowerChar a == lowerChar b else a == b

/-- Does `pat` occur (as a literal, CI when `ci`) at the head of `t`? -/
def matchesAt (ci : Bool) : List Char → List Char → Bool
  | [], _ => true
  | _ :: _, [] => false
  | p :: ps, c :: cs => charEqCI ci p c && matchesAt ci ps cs

/-- Index of the leftmost occurrence of `pat` in `t` (`String.indexOf` /
leftmost literal regex search). -/
def findIdx0 (ci : Bool) (pat : List Char) : List Char → Option Nat
  | [] => if matchesAt ci pat [] then some 0 else none
  | c :: cs =>
    if matchesAt ci pat (c :: cs) then some 0
    else (findIdx0 ci pat cs).map (· + 1)

/-- Models `String.indexOf(pat, i)`. -/
def indexOfFrom (pat t : List Char) (i : Nat) : Option Nat :=
  (findIdx0 false pat (t.drop i)).map (· + i)

/-- Substring occurrence test. -/
def hasSub (ci : Bool) (pat t : List Char) : Bool := (findIdx0 ci pat t).isSome

/-- Backquote character (96). -/
def btChar : Char := Char.ofNat 96

/-- Single-quote character (39). -/
def quChar : Char := Char.ofNat 39

/-- JavaScript GetSubstitution for a string search pattern (no capture
groups): dollar escapes in the replacement string are expanded. -/
def dollarSubst (matched pre post : List Char) : List Char → List Char
  | [] => []
  | ['$'] => ['$']
  | '$' :: d :: ds =>
    if d = '$' then '$' :: dollarSubst matched pre post ds
    else if d = '&' then matched ++ dollarSubst matched pre post ds
    else if d = btChar then pre ++ dollarSubst matched pre post ds
    else if d = quChar then post ++ dollarSubst matched pre post ds
    else '$' :: dollarSubst matched pre post (d :: ds)
  | c :: cs => c :: dollarSubst matched pre post cs

/-- Models `String.prototype.replace` with a string search pattern: first occurrence
only, dollar escapes expanded in the replacement. -/
def replaceFirstJS (pat rep t : List Char) : List Char :=
  match findIdx0 false pat t with
  | none => t
  | some i =>
    let pre := t.take i
    let post := t.drop (i + pat.length)
    pre ++ dollarSubst pat pre post rep ++ post

/-- Global case-sensitive literal replacement (fuel-driven; fuel `t.length`
always suffices since each step consumes at least one character). -/
def replAllF (pat rep : List Char) : Nat → List Char → List Char
  | 0, t => t
  | _ + 1, [] => []
  | f + 1, c :: cs =>
    if !pat.isEmpty && matchesAt false pat (c :: cs) then
      rep ++ replAllF pat rep f (List.drop (pat.length - 1) cs)
    else c :: replAllF pat rep f cs

/-- Models `text.replace(/literal/g, rep)`. -/
def replaceAllLit (pat rep t : List Char) : List Char := replAllF pat rep t.length t

/-- Global case-insensitive literal replacement with a callback on the
matched slice (`text.replace(/literal/gi, m => g m)`), fuel-driven. -/
def ciReplF (pat : List Char) (g : List Char → List Char) : Nat → List Char → List Char
  | 0, t => t
  | _ + 1, [] => []
  | f + 1, c :: cs =>
    if !pat.isEmpty && matchesAt true pat (c :: cs) then
      g ((c :: cs).take pat.length) ++ ciReplF pat g f ((c :: cs).drop pat.length)
    else c :: ciReplF pat g f cs

/-- Models `text.replace(/literal/gi, g)`. -/
def ciReplaceAll (pat : List Char) (g : List Char → List Char) (t : List Char) : List Char :=
  ciReplF pat g t.length t

/-- Inside one exception match: `match.replace(new RegExp(digraph, 'g'),
digraph[0] + ZWNJ + digraph[1])`. -/
def splitKey (a b : Char) (m : List Char) : List Char :=
  replaceAllLit [a, b] [a, zwnj, b] m

/-- Models `Object.entries(digraphExceptionPatterns)` in insertion order. -/
def exceptionEntries : List ((Char × Char) × List String) :=
  [(('d', 'j'), djPats), (('d', 'ž'), dzPats), (('n', 'j'), njPats)]

/-- Embeds `handleDigraphExceptions` of the source. -/
def handleDigraphExceptions (t : List Char) : List Char :=
  exceptionEntries.foldl (fun acc e =>
    e.2.foldl (fun acc2 p => ciReplaceAll p.data (splitKey e.1.1 e.1.2) acc2) acc) t

/-- Embeds `digraphRegexps` of the source. -/
def digraphList : List (String × Char) :=
  [("Lj", 'Љ'), ("Nj", 'Њ'), ("Dž", 'Џ'), ("lj", 'љ'), ("nj", 'њ'), ("dž", 'џ')]

/-- The digraph merge loop of `toCyrillic`. -/
def mergeDigraphs (t : List Char) : List Char :=
  digraphList.foldl (fun acc e => replaceAllLit e.1.data [e.2] acc) t

/-- JavaScript line terminators, which `.` does not match. -/
def isLineTerm (c : Char) : Bool :=
  c = '\n' || c = '\r' || c = ' ' || c = ' '

/-- Lazy scan of `(.*?)close`: offset of the earliest match of `cls`
reachable without crossing a line terminator. -/
def closeScan (ci : Bool) (cls : List Char) : List Char → Option Nat
  | [] => if matchesAt ci cls [] then some 0 else none
  | c :: cs =>
    if matchesAt ci cls (c :: cs) then some 0
    else if isLineTerm c then none
    else (closeScan ci cls cs).map (· + 1)

/-- Attempt of the marker regex `open(.*?)close` anchored at the head;
returns the content length on success. -/
def markerTryAt (ci : Bool) (opn cls t : List Char) : Option Nat :=
  if matchesAt ci opn t then closeScan ci cls (t.drop opn.length) else none

/-- Leftmost match of the marker regex: `(start, content length)`. -/
def findMM (ci : Bool) (opn cls : List Char) : List Char → Option (Nat × Nat)
  | [] => (markerTryAt ci opn cls []).map (fun k => (0, k))
  | c :: cs =>
    match markerTryAt ci opn cls (c :: cs) with
    | some k => some (0, k)
    | none => (findMM ci opn cls cs).map (fun q => (q.1 + 1, q.2))

/-- Decimal digits of `n` (fuel-driven). -/
def natDigitsF : Nat → Nat → List Char
  | 0, _ => []
  | f + 1, n =>
    if n < 10 then [Char.ofNat (48 + n)]
    else natDigitsF f (n / 10) ++ [Char.ofNat (48 + n % 10)]

/-- Decimal rendering of `n`, as in JavaScript template interpolation. -/
def natDigits (n : Nat) : List Char := natDigitsF (n + 1) n

/-- The marker placeholder `${SKIP_PREFIX}MARKER_${i}__`. -/
def phMarker (i : Nat) : List Char :=
  skipPre ++ "MARKER_".data ++ natDigits i ++ "__".data

/-- The word placeholder `${SKIP_PREFIX}WORD_${i}__`. -/
def phWord (i : Nat) : List Char :=
  skipPre ++ "WORD_".data ++ natDigits i ++ "__".data

/-- The skip-marker extraction loop (global replace of the marker regex by
fresh placeholders; contents retained in discovery order). -/
def markerPassF (ci : Bool) (opn cls : List Char) :
    Nat → Nat → List Char → List Char × List (List Char)
  | 0, _, t => (t, [])
  | f + 1, idx, t =>
    match findMM ci opn cls t with
    | none => (t, [])
    | some (q, k) =>
      let pre := t.take q
      let content := (t.drop (q + opn.length)).take k
      let rest := t.drop (q + opn.length + k + cls.length)
      let r := markerPassF ci opn cls f (idx + 1) rest
      (pre ++ phMarker idx ++ r.1, content :: r.2)

/-- ASCII `\w` (the source's `/\b\w+\b/g` has no `u` flag). -/
def isWordCharA (c : Char) : Bool :=
  decide (('a' ≤ c ∧ c ≤ 'z') ∨ ('A' ≤ c ∧ c ≤ 'Z') ∨ ('0' ≤ c ∧ c ≤ '9') ∨ c = '_')

/-- The forced-skip letters `[qwyxQWYX]`. -/
def isQWXY (c : Char) : Bool :=
  decide (c = 'q' ∨ c = 'w' ∨ c = 'y' ∨ c = 'x' ∨
          c = 'Q' ∨ c = 'W' ∨ c = 'Y' ∨ c = 'X')

/-- The forced-skip pass: every maximal `\w` run containing one of q/w/y/x is
replaced by a fresh word placeholder and retained. -/
def forcedF : Nat → Nat → List Char → List Char × List (List Char)
  | 0, _, t => (t, [])
  | _ + 1, _, [] => ([], [])
  | f + 1, idx, c :: cs =>
    if isWordCharA c then
      let run := c :: cs.takeWhile isWordCharA
      let rest := cs.dropWhile isWordCharA
      if run.any isQWXY then
        let r := forcedF f (idx + 1) rest
        (phWord idx ++ r.1, run :: r.2)
      else
        let r := forcedF f idx rest
        (run ++ r.1, r.2)
    else
      let r := forcedF f idx cs
      (c :: r.1, r.2)

/-- Unicode letter/number/underscore of the source's boundary rule,
restricted to the repertoire of this library. -/
def isUWordChar (c : Char) : Bool :=
  isWordCharA c || (cyr2lat c).isSome || (lat2cyr c).isSome

/-- The lookahead `(?=[^\p{L}\p{N}_]|$)`. -/
def boundaryAfter (t : List Char) : Bool :=
  match t with
  | [] => true
  | c :: _ => !isUWordChar c

/-- One caller skip word: global replace of
`(^|[^\p{L}\p{N}_])(word)(?=[^\p{L}\p{N}_]|$)`; note that the whole match,
including the leading boundary character, is retained and replaced. -/
def callerF (ci : Bool) (w : List Char) :
    Nat → Bool → Nat → List Char → List Char × List (List Char)
  | 0, _, _, t => (t, [])
  | _ + 1, _, _, [] => ([], [])
  | f + 1, atStart, idx, c :: cs =>
    if atStart && !w.isEmpty && matchesAt ci w (c :: cs) &&
        boundaryAfter ((c :: cs).drop w.length) then
      let matched := (c :: cs).take w.length
      let rest := (c :: cs).drop w.length
      let r := callerF ci w f false (idx + 1) rest
      (phWord idx ++ r.1, matched :: r.2)
    else if !isUWordChar c && !w.isEmpty && matchesAt ci w cs &&
        boundaryAfter (cs.drop w.length) then
      let matched := c :: cs.take w.length
      let rest := cs.drop w.length
      let r := callerF ci w f false (idx + 1) rest
      (phWord idx ++ r.1, matched :: r.2)
    else
      let r := callerF ci w f false idx cs
      (c :: r.1, r.2)

/-- Models `skip.words.forEach(...)`: the words processed in order, sharing one
table with the forced pass. -/
def callerWords (ci : Bool) (ws : List (List Char)) (idx0 : Nat) (t0 : List Char) :
    List Char × List (List Char) :=
  ws.foldl (fun st w =>
    let r := callerF ci w (st.1.length + 1) true (idx0 + st.2.length) st.1
    (r.1, st.2 ++ r.2)) (t0, [])

/-- Models `latin2CyrillicMap[char] ?? char`. -/
def lat2cyrD (c : Char) : Char := (lat2cyr c).getD c

/-- One iteration of the `while (i < result.length)` body of `toCyrillic`.
When a placeholder starts at `i` but no terminating `__` follows, the source
leaves `i` unchanged: the loop then never advances. -/
def latinScanStep (res : List Char) (i : Nat) (acc : List Char) : Nat × List Char :=
  let normal : Nat × List Char :=
    match (res.drop i).head? with
    | some c => if c = zwnj then (i + 1, acc) else (i + 1, acc ++ [lat2cyrD c])
    | none => (i + 1, acc)
  match indexOfFrom skipPre res i with
  | some m =>
    if m = i then
      match indexOfFrom "__".data res (i + skipPre.length) with
      | some e => (e + 2, acc ++ ((res.take (e + 2)).drop i))
      | none => (i, acc)
    else normal
  | none => normal

/-- The scan loop, fuel-driven. `t.length + 2` fuel suffices for every
terminating run; `none` models a run that never finishes. -/
def scanF (res : List Char) : Nat → Nat → List Char → Option (List Char)
  | 0, _, _ => none
  | f + 1, i, acc =>
    if i < res.length then
      let st := latinScanStep res i acc
      scanF res f st.1 st.2
    else some acc

/-- The restoration loops: for each retained entry in order, replace the
first occurrence of its placeholder. -/
def restoreFrom (ph : Nat → List Char) : Nat → List (List Char) → List Char → List Char
  | _, [], t => t
  | i, r :: rs, t => restoreFrom ph (i + 1) rs (replaceFirstJS (ph i) r t)

/-- Models `result.replace(new RegExp(ZWNJ, 'g'), '')`. -/
def zwnjStrip (t : List Char) : List Char := replaceAllLit [zwnj] [] t

/-- The error message thrown on identical markers. -/
def identicalMarkersMsg : List Char :=
  "The opening and closing markers cannot be the same.".data

/-- Embeds `ToCyrillicSkipOptions` of the source (optional fields). -/
structure ToCyrillicSkipOptions where
  caseSensitive : Option Bool
  words : Option (List (List Char))
  markers : Option (List Char × List Char)

/-- Embeds `ToCyrillicOptions` of the source. -/
structure ToCyrillicOptions where
  skip : Option ToCyrillicSkipOptions

/-- Embeds `toCyrillic` of the source. `Except.error` models the thrown error;
`Except.ok none` models a call that never returns (the scan loop stalls);
`Except.ok (some s)` models a normal return of `s`. -/
def toCyrillic (text : List Char) (options : Option ToCyrillicOptions) :
    Except (List Char) (Option (List Char)) :=
  if text = [] then Except.ok (some []) else
  let so := options.bind ToCyrillicOptions.skip
  let caseSensitive := (so.bind ToCyrillicSkipOptions.caseSensitive).getD true
  let words := (so.bind ToCyrillicSkipOptions.words).getD []
  let markers := (so.bind ToCyrillicSkipOptions.markers).getD
    ("<skip>".data, "</skip>".data)
  if markers.1 = markers.2 then Except.error identicalMarkersMsg else
  let ci := !caseSensitive
  let m := markerPassF ci markers.1 markers.2 (text.length + 1) 0 text
  let fw := forcedF (m.1.length + 1) 0 m.1
  let cw := callerWords ci words fw.2.length fw.1
  let wordTbl := fw.2 ++ cw.2
  let t5 := mergeDigraphs (handleDigraphExceptions cw.1)
  match scanF t5 (t5.length + 2) 0 [] with
  | none => Except.ok none
  | some t6 =>
    let t7 := restoreFrom phMarker 0 m.2 t6
    let t8 := restoreFrom phWord 0 wordTbl t7
    Except.ok (some (zwnjStrip t8))

/-- Does the conversion of `p` (no options) succeed and avoid both given
merged Cyrillic letters? Used to state the digraph-exception law over the
exception tables themselves. -/
def noMergedChar (p : String) (c₁ c₂ : Char) : Bool :=
  match toCyrillic p.data none with
  | Except.ok (some s) => !(s.contains c₁) && !(s.contains c₂)
  | _ => false

/-- Maximal ASCII word-character runs of a text: the tokens matched by the
source regex `/\b\w+\b/g` (fuel-driven; fuel `t.length` suffices). This is
the run-level decomposition against which the forced-skip pass is compared. -/
def wordRuns : Nat → List Char → List (List Char)
  | 0, _ => []
  | _ + 1, [] => []
  | f + 1, c :: cs =>
    if isWordCharA c then
      (c :: cs.takeWhile isWordCharA) :: wordRuns f (cs.dropWhile isWordCharA)
    else wordRuns f cs

/-- The maximal word-character runs of `t`. -/
def wordRunsOf (t : List Char) : List (List Char) := wordRuns t.length t

/-- The mapped Cyrillic letters excluded from the amended round-trip claim:
the four lowercase letters whose Latin images form or complete a lowercase
digraph (ј after л/н, ж after д, and the digraph letters њ, џ whose images
hit the case-sensitive exception guard). Their capitals round-trip: every
merge pattern of `digraphRegexps` requires a lowercase second character, so
`J`/`Ž` never merge across a boundary, and the guard's inner replacement is
case-sensitive, so the images `Nj`/`Dž` are never split and always merge
back. -/
def excludedCyr : List Char := ['ј', 'ж', 'њ', 'џ']

/-- The mapped Cyrillic letters over which the amended round trip is proved. -/
def allowedCyr : List Char :=
  (cyr2latPairs.map Prod.fst).filter (fun c => !excludedCyr.contains c)

/-- The Latin image of one character under `toLatin`. -/
def latImg (c : Char) : List Char := (cyr2lat c).getD [c]

/-- One digraph-merge step at the level of letter images. -/
def imgStep (pat : List Char) (r : Char) (g : Char → List Char) (c : Char) : List Char :=
  if g c = pat then [r] else g c

/-- Letter images after the successive merge steps of `digraphRegexps`. -/
def img1 : Char → List Char := imgStep ['L', 'j'] 'Љ' latImg

def img2 : Char → List Char := imgStep ['N', 'j'] 'Њ' img1

def img3 : Char → List Char := imgStep ['D', 'ž'] 'Џ' img2

def img4 : Char → List Char := imgStep ['l', 'j'] 'љ' img3

def img5 : Char → List Char := imgStep ['n', 'j'] 'њ' img4

def img6 : Char → List Char := imgStep ['d', 'ž'] 'џ' img5

end SerbianTransliteration

namespace SerbianTransliteration

/-! ### Helper lemmas -/

theorem foldl_append_join {α β : Type} (f : α → List β) (t : List α) (acc : List β) :
    t.foldl (fun r c => r ++ f c) acc = acc ++ (t.map f).join := by
  induction t generalizing acc with
  | nil => simp
  | cons c cs ih => simp [ih, List.append_assoc]

theorem toLatin_eq_join (t : List Char) :
    toLatin t = (t.map (fun c => (cyr2lat c).getD [c])).join := by
  unfold toLatin
  by_cases h : t = []
  · simp [h]
  · rw [if_neg h, foldl_append_join]
    simp

theorem lookup_isSome_mem {β : Type} (ps : List (Char × β)) (c : Char)
    (h : (List.lookup c ps).isSome = true) : c ∈ ps.map Prod.fst := by
  induction ps with
  | nil => simp [List.lookup] at h
  | cons kv rest ih =>
    rw [List.lookup] at h
    by_cases hk : (c == kv.1) = true
    · exact List.mem_map.mpr ⟨kv, List.mem_cons_self .., by
        exact (eq_of_beq hk).symm⟩
    · rw [Bool.not_eq_true] at hk
      rw [hk] at h
      exact List.mem_cons_of_mem _ (ih h)

theorem latSome_cyrNone (c : Char) (h : (lat2cyr c).isSome = true) :
    (cyr2lat c).isSome = false := by
  have hm : c ∈ lat2cyrPairs.map Prod.fst := lookup_isSome_mem lat2cyrPairs c h
  have hall : (lat2cyrPairs.map Prod.fst).all (fun d => (cyr2lat d).isNone) = true := by decide
  have hc := List.all_eq_true.mp hall _ hm
  cases hcl : cyr2lat c with
  | none => rfl
  | some v => rw [hcl] at hc; simp [Option.isNone] at hc

theorem count_fold (t : List Char) (a b : Nat) :
    t.foldl (fun n c =>
      if (cyr2lat c).isSome then (n.1 + 1, n.2)
      else if (lat2cyr c).isSome then (n.1, n.2 + 1)
      else n) (a, b)
    = (a + t.countP (fun c => (cyr2lat c).isSome),
       b + t.countP (fun c => !(cyr2lat c).isSome && (lat2cyr c).isSome)) := by
  induction t generalizing a b with
  | nil => simp
  | cons c cs ih =>
    simp only [List.foldl, List.countP_cons]
    by_cases h1 : (cyr2lat c).isSome = true
    · rw [if_pos h1, ih, Prod.mk.injEq]
      constructor <;> simp [h1] <;> omega
    · rw [Bool.not_eq_true] at h1
      by_cases h2 : (lat2cyr c).isSome = true
      · rw [if_neg (by simp [h1]), if_pos h2, ih, Prod.mk.injEq]
        constructor <;> simp [h1, h2] <;> omega
      · rw [Bool.not_eq_true] at h2
        rw [if_neg (by simp [h1]), if_neg (by simp [h2]), ih, Prod.mk.injEq]
        constructor <;> simp [h1, h2] <;> omega

theorem count_spec (t : List Char) :
    countCyrillicAndLatinLetters t
      = (t.countP (fun c => (cyr2lat c).isSome),
         t.countP (fun c => (lat2cyr c).isSome)) := by
  unfold countCyrillicAndLatinLetters
  rw [count_fold]
  simp only [Nat.zero_add]
  congr 1
  apply List.countP_congr
  intro c _
  cases h2 : (lat2cyr c).isSome with
  | false => simp [h2]
  | true => simp [h2, latSome_cyrNone c h2]

/-! ### Claims C5, C7, C10 -/

/-- C5: `toLatin` is total and error-free: for every string, it is the
character-by-character concatenation in which each character is replaced by
its Cyrillic-to-Latin mapped value when present in the map and emitted
unchanged otherwise; the empty (falsy) input yields the empty string as the
`[]` instance of the equation. -/
theorem claim_C5 (t : List Char) :
    toLatin t = (t.map (fun c => (cyr2lat c).getD [c])).join :=
  toLatin_eq_join t

/-- C7: `isCyrillic` is true iff the count of characters present in the
Cyrillic-to-Latin map strictly exceeds the count of characters present in the
Latin-to-Cyrillic map, `isLatin` is the mirror comparison, equal counts make
both false, and the boundary examples of the specification hold. -/
theorem claim_C7 (t : List Char) :
    (isCyrillic t = true ↔
      t.countP (fun c => (lat2cyr c).isSome) < t.countP (fun c => (cyr2lat c).isSome))
  ∧ (isLatin t = true ↔
      t.countP (fun c => (cyr2lat c).isSome) < t.countP (fun c => (lat2cyr c).isSome))
  ∧ (t.countP (fun c => (cyr2lat c).isSome) = t.countP (fun c => (lat2cyr c).isSome) →
      isCyrillic t = false ∧ isLatin t = false)
  ∧ isCyrillic "Добар Dobar".data = false
  ∧ isLatin "Добар Dobar".data = false
  ∧ isCyrillic "123!@#".data = false := by
  refine ⟨?_, ?_, ?_, by decide, by decide, by decide⟩
  · unfold isCyrillic
    by_cases h : t = []
    · subst h; simp
    · rw [if_neg h, count_spec]
      simp
  · unfold isLatin
    by_cases h : t = []
    · subst h; simp
    · rw [if_neg h, count_spec]
      simp
  · intro he
    unfold isCyrillic isLatin
    by_cases h : t = []
    · simp [h]
    · rw [if_neg h, if_neg h, count_spec]
      simp only [decide_eq_false_iff_not]
      omega

/-- C10: the script-majority predicates are mutually exclusive: `isCyrillic`
and `isLatin` are never both true on the same input. -/
theorem claim_C10 (t : List Char) : (isCyrillic t && isLatin t) = false := by
  unfold isCyrillic isLatin
  by_cases h : t = []
  · simp [h]
  · rw [if_neg h, if_neg h]
    rcases Nat.lt_or_ge (countCyrillicAndLatinLetters t).2 (countCyrillicAndLatinLetters t).1 with h2 | h2
    · have hn : ¬ (countCyrillicAndLatinLetters t).1 < (countCyrillicAndLatinLetters t).2 := by omega
      simp [hn]
    · have hn : ¬ (countCyrillicAndLatinLetters t).2 < (countCyrillicAndLatinLetters t).1 := by omega
      simp [hn]

/-! ### Claims C9, C2, C6 (concrete pipeline evaluations) -/

set_option maxHeartbeats 400000000 in
/-- C9: the case-sensitivity laws of the skip-word option: with
`caseSensitive: true` and the skip word `TEST`, only the exact occurrence is
preserved; with `caseSensitive: false` and the skip word `test`, all three
occurrences are skipped and the input is returned unchanged. -/
theorem claim_C9 :
    toCyrillic "Test TEST test".data
        (some ⟨some ⟨some true, some ["TEST".data], none⟩⟩)
      = Except.ok (some "Тест TEST тест".data)
  ∧ toCyrillic "Test TEST test".data
        (some ⟨some ⟨some false, some ["test".data], none⟩⟩)
      = Except.ok (some "Test TEST test".data) :=
  ⟨rfl, rfl⟩

set_option maxHeartbeats 400000000 in
/-- C2: the concrete skip-marker law of the specification holds, but the
restoration step is not verbatim for every retained content: the source
feeds the content through the replacement-pattern substitution of
JavaScript `String.prototype.replace`, so a content containing a dollar
escape (here the span `a$&b`) is expanded — the `$&` becomes the
placeholder itself, which then survives into the final output. -/
theorem claim_C2 :
    toCyrillic "ovo je <skip>some code</skip> za primer".data none
      = Except.ok (some "ово је some code за пример".data)
  ∧ toCyrillic "ovo <skip>a$&b</skip>".data none
      = Except.ok (some ("ово a".data ++ phMarker 0 ++ "b".data))
  ∧ (("ово a".data ++ phMarker 0 ++ "b".data) == "ово a$&b".data) = false :=
  ⟨rfl, rfl, by decide⟩

/-! ### Claim C3 (identical-markers error) -/

/-- C3: for every non-empty text and every options value whose markers are a
pair with equal elements, `toCyrillic` fails with the identical-markers
error (the check precedes every transformation in the definition); and for
every options value carrying a pair of distinct markers no error is raised. -/
theorem claim_C3 :
    (∀ (t : List Char) (o : Option ToCyrillicOptions) (m : List Char),
        t ≠ [] →
        (o.bind ToCyrillicOptions.skip).bind ToCyrillicSkipOptions.markers = some (m, m) →
        toCyrillic t o = Except.error identicalMarkersMsg)
  ∧ (∀ (t : List Char) (o : Option ToCyrillicOptions) (m₁ m₂ : List Char),
        (o.bind ToCyrillicOptions.skip).bind ToCyrillicSkipOptions.markers = some (m₁, m₂) →
        m₁ ≠ m₂ →
        (toCyrillic t o).isOk = true) := by
  constructor
  · intro t o m ht hm
    unfold toCyrillic
    rw [if_neg ht]
    dsimp only
    rw [hm]
    dsimp only [Option.getD_some]
    exact if_pos rfl
  · intro t o m₁ m₂ hm hne
    by_cases ht : t = []
    · subst ht
      rfl
    · unfold toCyrillic
      rw [if_neg ht]
      dsimp only
      rw [hm]
      dsimp only [Option.getD_some]
      rw [if_neg (by simpa using hne)]
      split <;> rfl

/-- Witness for C3 at concrete inputs: identical markers raise the error,
distinct markers do not. -/
theorem claim_C3_witness :
    toCyrillic "test".data
        (some ⟨some ⟨none, none, some ("<tag>".data, "<tag>".data)⟩⟩)
      = Except.error identicalMarkersMsg
  ∧ (toCyrillic "test".data
        (some ⟨some ⟨none, none, some ("<tag>".data, "</tag>".data)⟩⟩)).isOk = true :=
  ⟨claim_C3.1 _ _ _ (by decide) rfl, claim_C3.2 _ _ _ _ rfl (by decide)⟩

/-! ### Claim C4 (non-termination of the scan loop) -/

/-- C4: the placeholder-scanning loop does not terminate on every input.
On a text containing the reserved prefix `__SKIP__` with no later
`__`, the loop body leaves its index unchanged, so the loop never finishes:
the fuel-indexed model returns `none` for every fuel, and the full pipeline
maps the input to the diverging outcome `Except.ok none`. This refutes the
claimed bounded-time completion on exactly the inputs the claim singles out
(those containing the reserved placeholder prefix). -/
theorem claim_C4 :
    (∀ (fuel : Nat) (acc : List Char), scanF "__SKIP__".data fuel 0 acc = none)
  ∧ toCyrillic "__SKIP__".data none = Except.ok none := by
  constructor
  · intro fuel
    induction fuel with
    | zero => intro acc; rfl
    | succ f ih =>
      intro acc
      show scanF "__SKIP__".data f 0 acc = none
      exact ih acc
  · rfl


/-! ### Helper lemmas for the placeholder machinery (claim C8) -/

theorem matchesAt_self (pat rest : List Char) :
    matchesAt false pat (pat ++ rest) = true := by
  induction pat with
  | nil => rfl
  | cons p ps ih => simp [matchesAt, charEqCI, ih]

theorem matchesAt_head_false (x : Char) (xs : List Char) (c : Char) (cs : List Char)
    (h : (x == c) = false) : matchesAt false (x :: xs) (c :: cs) = false := by
  simp [matchesAt, charEqCI, h]

theorem phWord_head (i : Nat) :
    ∃ r, phWord i = puaChar :: r := by
  refine ⟨"__SKIP__".data ++ ("WORD_".data ++ natDigits i ++ "__".data), ?_⟩
  show (puaChar :: "__SKIP__".data) ++ "WORD_".data ++ natDigits i ++ "__".data = _
  simp

theorem dollarSubst_no_dollar (matched pre post rep : List Char) (h : '$' ∉ rep) :
    dollarSubst matched pre post rep = rep := by
  induction rep with
  | nil => rfl
  | cons c cs ih =>
    have hc : ¬ c = '$' := fun he => h (by rw [he]; exact List.mem_cons_self _ _)
    have hstep : dollarSubst matched pre post (c :: cs) = c :: dollarSubst matched pre post cs := by
      rw [dollarSubst.eq_def]
      split
      · simp_all
      · simp_all
      · simp_all
      · rename_i c2 cs2 heq
        rw [List.cons.injEq] at heq
        rw [heq.1, heq.2]
    rw [hstep, ih (fun hm => h (List.mem_cons_of_mem _ hm))]

theorem replaceFirstJS_cons (pat rep : List Char) (c : Char) (t : List Char)
    (hm : matchesAt false pat (c :: t) = false) (hrep : '$' ∉ rep) :
    replaceFirstJS pat rep (c :: t) = c :: replaceFirstJS pat rep t := by
  unfold replaceFirstJS
  rw [show findIdx0 false pat (c :: t) = (findIdx0 false pat t).map (· + 1) by
    simp only [findIdx0, hm]
    simp]
  cases hfi : findIdx0 false pat t with
  | none => rfl
  | some i =>
    dsimp only [Option.map]
    rw [dollarSubst_no_dollar _ _ _ _ hrep, dollarSubst_no_dollar _ _ _ _ hrep]
    have e2 : List.drop (i + 1 + pat.length) (c :: t) = List.drop (i + pat.length) t := by
      rw [Nat.add_right_comm]
      exact List.drop_succ_cons
    rw [List.take_succ_cons, e2, List.cons_append]
    simp [List.append_assoc]

theorem replaceFirstJS_hit (pat rep x : List Char) (hne : pat ≠ [])
    (hrep : '$' ∉ rep) : replaceFirstJS pat rep (pat ++ x) = rep ++ x := by
  unfold replaceFirstJS
  rw [show findIdx0 false pat (pat ++ x) = some 0 by
    cases pat with
    | nil => exact absurd rfl hne
    | cons p ps =>
      rw [List.cons_append]
      simp only [findIdx0]
      rw [show matchesAt false (p :: ps) (p :: (ps ++ x)) = true by
        rw [← List.cons_append]; exact matchesAt_self _ _]
      simp]
  dsimp only
  rw [dollarSubst_no_dollar _ _ _ _ hrep]
  simp [List.drop_left]

theorem restoreFrom_cons (tbl : List (List Char)) (idx : Nat) (c : Char) (x : List Char)
    (hc : c ≠ puaChar) (htb : ∀ w ∈ tbl, '$' ∉ w) :
    restoreFrom phWord idx tbl (c :: x) = c :: restoreFrom phWord idx tbl x := by
  induction tbl generalizing idx x with
  | nil => rfl
  | cons w ws ih =>
    simp only [restoreFrom]
    obtain ⟨r, hr⟩ := phWord_head idx
    rw [replaceFirstJS_cons _ _ _ _
      (by rw [hr]; exact matchesAt_head_false _ _ _ _ (beq_eq_false_iff_ne.mpr (Ne.symm hc)))
      (htb w (List.mem_cons_self _ _))]
    exact ih (idx + 1) (replaceFirstJS (phWord idx) w x)
      (fun v hv => htb v (List.mem_cons_of_mem _ hv))

theorem restoreFrom_append (tbl : List (List Char)) (idx : Nat) (pre x : List Char)
    (hpre : ∀ c ∈ pre, c ≠ puaChar) (htb : ∀ w ∈ tbl, '$' ∉ w) :
    restoreFrom phWord idx tbl (pre ++ x) = pre ++ restoreFrom phWord idx tbl x := by
  induction pre with
  | nil => simp
  | cons c p ih =>
    rw [List.cons_append,
      restoreFrom_cons tbl idx c (p ++ x) (hpre c (List.mem_cons_self _ _)) htb,
      ih (fun d hd => hpre d (List.mem_cons_of_mem _ hd)), List.cons_append]

theorem wordRuns_congr (f1 : Nat) : ∀ (t : List Char) (f2 : Nat),
    t.length ≤ f1 → t.length ≤ f2 → wordRuns f1 t = wordRuns f2 t := by
  induction f1 with
  | zero =>
    intro t f2 h1 _
    have : t = [] := List.eq_nil_of_length_eq_zero (Nat.le_zero.mp h1)
    subst this
    cases f2 <;> rfl
  | succ f ih =>
    intro t f2 h1 h2
    cases t with
    | nil => cases f2 <;> rfl
    | cons c cs =>
      cases f2 with
      | zero => simp at h2
      | succ g =>
        simp only [wordRuns]
        by_cases hw : isWordCharA c = true
        · rw [if_pos hw, if_pos hw]
          have hd : (cs.dropWhile isWordCharA).length ≤ cs.length :=
            (List.dropWhile_sublist _).length_le
          rw [ih (cs.dropWhile isWordCharA) g (by simp at h1; omega) (by simp at h2; omega)]
        · rw [if_neg hw, if_neg hw]
          exact ih cs g (by simp at h1; omega) (by simp at h2; omega)

theorem runs_entries (fuel : Nat) : ∀ (t : List Char) (r : List Char),
    r ∈ wordRuns fuel t → r ≠ [] ∧ ∀ c ∈ r, isWordCharA c = true := by
  induction fuel with
  | zero => intro t r h; simp [wordRuns] at h
  | succ f ih =>
    intro t r h
    cases t with
    | nil => simp [wordRuns] at h
    | cons c cs =>
      simp only [wordRuns] at h
      by_cases hw : isWordCharA c = true
      · rw [if_pos hw] at h
        rcases List.mem_cons.mp h with he | hm
        · subst he
          refine ⟨by simp, ?_⟩
          intro d hd
          rcases List.mem_cons.mp hd with he2 | hm2
          · rw [he2]; exact hw
          · exact List.mem_takeWhile_imp hm2
        · exact ih _ r hm
      · rw [if_neg hw] at h
        exact ih cs r h

theorem forced_tbl (fuel : Nat) : ∀ (idx : Nat) (t : List Char), t.length < fuel →
    (forcedF fuel idx t).2 = (wordRunsOf t).filter (fun r => r.any isQWXY) := by
  induction fuel with
  | zero => intro idx t h; exact absurd h (Nat.not_lt_zero _)
  | succ f ih =>
    intro idx t hlen
    cases t with
    | nil =>
      show ([] : List (List Char)) = _
      rfl
    | cons c cs =>
      have hruns : wordRunsOf (c :: cs) = wordRuns (f + 1) (c :: cs) :=
        wordRuns_congr _ _ _ (Nat.le_refl _) (Nat.le_of_lt_succ (Nat.lt_succ_of_lt hlen))
      rw [hruns]
      simp only [forcedF, wordRuns]
      by_cases hw : isWordCharA c = true
      · rw [if_pos hw, if_pos hw]
        have hd : (cs.dropWhile isWordCharA).length < f := by
          have := (List.dropWhile_sublist (l := cs) (p := isWordCharA)).length_le
          simp at hlen
          omega
        have hrest : wordRuns f (cs.dropWhile isWordCharA)
            = wordRunsOf (cs.dropWhile isWordCharA) :=
          wordRuns_congr _ _ _ (Nat.le_of_lt hd) (Nat.le_refl _)
        by_cases hq : (c :: cs.takeWhile isWordCharA).any isQWXY = true
        · rw [if_pos hq]
          dsimp only
          rw [List.filter_cons, hq, if_pos rfl, hrest, ih (idx + 1) _ hd]
        · have hq2 : (c :: cs.takeWhile isWordCharA).any isQWXY = false := by
            rw [← Bool.not_eq_true]; exact hq
          rw [if_neg hq]
          dsimp only
          rw [List.filter_cons, hq2, if_neg (by simp), hrest, ih idx _ hd]
      · rw [if_neg hw, if_neg hw]
        have hlc : cs.length < f := by simp at hlen; omega
        rw [ih idx cs hlc,
          show wordRuns f cs = wordRunsOf cs from
            wordRuns_congr f cs cs.length (Nat.le_of_lt hlc) (Nat.le_refl _)]

theorem forced_entry_chars (fuel idx : Nat) (t : List Char) (hf : t.length < fuel) :
    ∀ w ∈ (forcedF fuel idx t).2, ∀ c ∈ w, isWordCharA c = true := by
  intro w hw
  rw [forced_tbl fuel idx t hf] at hw
  exact (runs_entries _ _ _ (List.mem_filter.mp hw).1).2

theorem forced_restore (fuel : Nat) : ∀ (idx : Nat) (t : List Char), t.length < fuel →
    (∀ c ∈ t, c ≠ puaChar) →
    restoreFrom phWord idx (forcedF fuel idx t).2 (forcedF fuel idx t).1 = t := by
  induction fuel with
  | zero => intro idx t h _; exact absurd h (Nat.not_lt_zero _)
  | succ f ih =>
    intro idx t hlen hpua
    cases t with
    | nil => rfl
    | cons c cs =>
      have hwordnodollar : ∀ (fu id2 : Nat) (u : List Char), u.length < fu →
          ∀ w ∈ (forcedF fu id2 u).2, '$' ∉ w := by
        intro fu id2 u hu w hw hd
        have := forced_entry_chars fu id2 u hu w hw '$' hd
        exact absurd this (by decide)
      simp only [forcedF]
      by_cases hw : isWordCharA c = true
      · rw [if_pos hw]
        have hsub := (List.dropWhile_sublist (l := cs) (p := isWordCharA)).length_le
        have hd : (cs.dropWhile isWordCharA).length < f := by simp at hlen; omega
        have hpua2 : ∀ d ∈ cs.dropWhile isWordCharA, d ≠ puaChar := fun d hd2 =>
          hpua d (List.mem_cons_of_mem _ ((List.dropWhile_sublist _).mem hd2))
        have hrunpua : ∀ d ∈ c :: cs.takeWhile isWordCharA, d ≠ puaChar := by
          intro d hd2 he
          rcases List.mem_cons.mp hd2 with he2 | hm
          · have hcp : c = puaChar := by rw [← he2, he]
            rw [hcp] at hw
            exact absurd hw (by decide)
          · have htw := List.mem_takeWhile_imp hm
            rw [he] at htw
            exact absurd htw (by decide)
        have hrunnodollar : '$' ∉ c :: cs.takeWhile isWordCharA := by
          intro hd2
          rcases List.mem_cons.mp hd2 with he | hm
          · rw [← he] at hw
            exact absurd hw (by decide)
          · exact absurd (List.mem_takeWhile_imp hm) (by decide)
        by_cases hq : (c :: cs.takeWhile isWordCharA).any isQWXY = true
        · rw [if_pos hq]
          dsimp only
          simp only [restoreFrom]
          rw [replaceFirstJS_hit _ _ _
            (by obtain ⟨r, hr⟩ := phWord_head idx; rw [hr]; simp) hrunnodollar]
          rw [restoreFrom_append _ _ _ _ hrunpua (hwordnodollar f (idx + 1) _ hd)]
          rw [ih (idx + 1) _ hd hpua2, List.cons_append, List.takeWhile_append_dropWhile]
        · rw [if_neg hq]
          dsimp only
          rw [restoreFrom_append _ _ _ _ hrunpua (hwordnodollar f idx _ hd)]
          rw [ih idx _ hd hpua2, List.cons_append, List.takeWhile_append_dropWhile]
      · rw [if_neg hw]
        dsimp only
        have hlc : cs.length < f := by simp at hlen; omega
        rw [restoreFrom_cons _ _ _ _ (hpua c (List.mem_cons_self _ _))
          (hwordnodollar f idx cs hlc)]
        rw [ih idx cs hlc (fun d hd2 => hpua d (List.mem_cons_of_mem _ hd2))]

/-! ### Claim C8 -/

/-- C8 counterexample: as stated, the claim fails. With the crafted skip word
`__SKIP__WORD_0__`, the caller-skip pass captures the placeholder of the
already-extracted token `quick` (the private-use prefix character is a valid
boundary), after which restoration resolves the indices wrongly: the output
is the bare placeholder text and the forced-skip token `quick` — a maximal
word run containing `q` — does not appear in the output at all. -/
theorem claim_C8_cex :
    toCyrillic "quick".data
        (some ⟨some ⟨none, some ["__SKIP__WORD_0__".data], none⟩⟩)
      = Except.ok (some (phWord 0))
  ∧ hasSub false "quick".data (phWord 0) = false
  ∧ ("quick".data.all isWordCharA && "quick".data.any isQWXY) = true :=
  ⟨rfl, by decide, by decide⟩

set_option maxHeartbeats 400000000 in
/-- C8 (amended): the forced-skip extraction law holds at the level of the
pass itself: the retained side table consists of exactly the maximal
word-character runs that contain one of q/w/y/x, in order, and — provided the
input text does not contain the reserved private-use prefix character —
substituting the word placeholders back restores the input, so each such
token is preserved verbatim by extraction. The concrete law
`toCyrillic("JavaScript je quick!") = "ЈаваСцрипт је quick!"` holds as
stated. (Unconditional preservation in the final output is refuted by
`claim_C8_cex`.) -/
theorem claim_C8 (t : List Char) :
    (forcedF (t.length + 1) 0 t).2 = (wordRunsOf t).filter (fun r => r.any isQWXY)
  ∧ ((∀ c ∈ t, c ≠ puaChar) →
      restoreFrom phWord 0 (forcedF (t.length + 1) 0 t).2 (forcedF (t.length + 1) 0 t).1 = t)
  ∧ toCyrillic "JavaScript je quick!".data none
      = Except.ok (some "ЈаваСцрипт је quick!".data) :=
  ⟨forced_tbl _ 0 t (Nat.lt_succ_self _),
   fun h => forced_restore _ 0 t (Nat.lt_succ_self _) h, rfl⟩

/-- Witness for C8 at a concrete input. -/
theorem claim_C8_witness :
    restoreFrom phWord 0 (forcedF ("ab quick".data.length + 1) 0 "ab quick".data).2
      (forcedF ("ab quick".data.length + 1) 0 "ab quick".data).1 = "ab quick".data :=
  (claim_C8 "ab quick".data).2.1 (by decide)

/-- Witness for C7 at a concrete input with equal letter counts. -/
theorem claim_C7_witness :
    isCyrillic "Добар Dobar".data = false ∧ isLatin "Добар Dobar".data = false :=
  (claim_C7 "Добар Dobar".data).2.2.1 (by decide)


/-! ### Helper lemmas and development for claim C1 -/

/-! ### Generic string-search lemmas -/

theorem isSome_mapAdd (o : Option Nat) (k : Nat) :
    (Option.map (fun x => x + k) o).isSome = o.isSome := by
  cases o <;> rfl

theorem matchesAt_eq_isP (pat : List Char) : ∀ (t : List Char),
    matchesAt false pat t = pat.isPrefixOf t := by
  induction pat with
  | nil => intro t; cases t <;> rfl
  | cons p ps ih =>
    intro t
    cases t with
    | nil => rfl
    | cons c cs => simp [matchesAt, charEqCI, List.isPrefixOf, ih]

theorem hasSub_infix_iff (pat : List Char) : ∀ (t : List Char),
    hasSub false pat t = true ↔ pat <:+: t := by
  intro t
  induction t with
  | nil =>
    simp only [hasSub, findIdx0, matchesAt_eq_isP]
    cases pat with
    | nil => simp [List.isPrefixOf]
    | cons p ps => simp [List.isPrefixOf, List.infix_nil]
  | cons c cs ih =>
    simp only [hasSub, findIdx0] at *
    rw [List.infix_cons_iff, ← List.isPrefixOf_iff_prefix, ← matchesAt_eq_isP]
    by_cases hm : matchesAt false pat (c :: cs) = true
    · simp [hm]
    · rw [Bool.not_eq_true] at hm
      simp only [hm, Bool.false_eq_true, if_false, isSome_mapAdd]
      rw [ih]
      simp [hm]

theorem findIdx0_none_of_head (o : Char) (os : List Char) : ∀ (t : List Char),
    (∀ c ∈ t, o ≠ c) → findIdx0 false (o :: os) t = none := by
  intro t
  induction t with
  | nil => intro _; rfl
  | cons c cs ih =>
    intro h
    have hoc : (o == c) = false :=
      beq_eq_false_iff_ne.mpr (h c (List.mem_cons_self _ _))
    simp only [findIdx0, matchesAt, charEqCI, hoc, Bool.false_and, Bool.false_eq_true,
      if_false, ih (fun d hd => h d (List.mem_cons_of_mem _ hd)), Option.map_none']

theorem matchesAt_ci_lower (pat : List Char) : ∀ (t : List Char),
    matchesAt true pat t = matchesAt false (pat.map lowerChar) (t.map lowerChar) := by
  induction pat with
  | nil => intro t; cases t <;> rfl
  | cons p ps ih =>
    intro t
    cases t with
    | nil => rfl
    | cons c cs => simp [matchesAt, charEqCI, ih]

theorem findIdx0_ci_lower (pat : List Char) : ∀ (t : List Char),
    findIdx0 true pat t = findIdx0 false (pat.map lowerChar) (t.map lowerChar) := by
  intro t
  induction t with
  | nil => simp [findIdx0, matchesAt_ci_lower]
  | cons c cs ih => simp [findIdx0, matchesAt_ci_lower, ih]

/-! ### Identity lemmas: passes that find nothing change nothing -/

theorem ciReplF_id (pat : List Char) (g : List Char → List Char) : ∀ (fuel : Nat)
    (t : List Char), hasSub true pat t = false → ciReplF pat g fuel t = t := by
  intro fuel
  induction fuel with
  | zero => intro t _; rfl
  | succ f ih =>
    intro t h
    cases t with
    | nil => rfl
    | cons c cs =>
      have hm : matchesAt true pat (c :: cs) = false := by
        by_contra hx
        rw [Bool.not_eq_false] at hx
        simp [hasSub, findIdx0, hx] at h
      have h2 : hasSub true pat cs = false := by
        simp only [hasSub, findIdx0, hm, Bool.false_eq_true, if_false,
          Option.isSome_map] at h
        simpa [hasSub] using h
      simp only [ciReplF, hm, Bool.and_false, Bool.false_eq_true, if_false]
      rw [ih cs h2]

theorem replAllF_id (pat rep : List Char) : ∀ (fuel : Nat)
    (t : List Char), hasSub false pat t = false → replAllF pat rep fuel t = t := by
  intro fuel
  induction fuel with
  | zero => intro t _; rfl
  | succ f ih =>
    intro t h
    cases t with
    | nil => rfl
    | cons c cs =>
      have hm : matchesAt false pat (c :: cs) = false := by
        by_contra hx
        rw [Bool.not_eq_false] at hx
        simp [hasSub, findIdx0, hx] at h
      have h2 : hasSub false pat cs = false := by
        simp only [hasSub, findIdx0, hm, Bool.false_eq_true, if_false,
          Option.isSome_map] at h
        simpa [hasSub] using h
      simp only [replAllF, hm, Bool.and_false, Bool.false_eq_true, if_false]
      rw [ih cs h2]

theorem ciReplF_gid (pat : List Char) (g : List Char → List Char) : ∀ (fuel : Nat)
    (t : List Char), (∀ m : List Char, m <:+: t → g m = m) →
    ciReplF pat g fuel t = t := by
  intro fuel
  induction fuel with
  | zero => intro t _; rfl
  | succ f ih =>
    intro t hg
    cases t with
    | nil => rfl
    | cons c cs =>
      by_cases hm : (!pat.isEmpty && matchesAt true pat (c :: cs)) = true
      · simp only [ciReplF]
        rw [if_pos hm]
        rw [hg ((c :: cs).take pat.length) (List.take_prefix _ _).isInfix]
        rw [ih ((c :: cs).drop pat.length)
          (fun m hm2 => hg m (hm2.trans (List.drop_suffix _ _).isInfix))]
        exact List.take_append_drop _ _
      · simp only [ciReplF]
        rw [if_neg hm]
        rw [ih cs (fun m hm2 => hg m (hm2.trans (List.suffix_cons c cs).isInfix))]

theorem replAll_single_id (x : Char) (rep : List Char) : ∀ (fuel : Nat) (t : List Char),
    (∀ c ∈ t, x ≠ c) → replAllF [x] rep fuel t = t := by
  intro fuel
  induction fuel with
  | zero => intro t _; rfl
  | succ f ih =>
    intro t h
    cases t with
    | nil => rfl
    | cons c cs =>
      have hoc : (x == c) = false :=
        beq_eq_false_iff_ne.mpr (h c (List.mem_cons_self _ _))
      simp only [replAllF, matchesAt, charEqCI, hoc, Bool.false_and, Bool.and_false,
        Bool.false_eq_true, if_false]
      rw [ih cs (fun d hd => h d (List.mem_cons_of_mem _ hd))]

theorem findMM_none (ci : Bool) (o : Char) (os cls : List Char) : ∀ (t : List Char),
    (∀ c ∈ t, charEqCI ci o c = false) → findMM ci (o :: os) cls t = none := by
  intro t
  induction t with
  | nil => intro _; rfl
  | cons c cs ih =>
    intro h
    have : markerTryAt ci (o :: os) cls (c :: cs) = none := by
      unfold markerTryAt
      rw [if_neg]
      simp [matchesAt, h c (List.mem_cons_self _ _)]
    simp only [findMM, this, ih (fun d hd => h d (List.mem_cons_of_mem _ hd)),
      Option.map_none']

theorem markerPassF_id (ci : Bool) (o : Char) (os cls : List Char)
    (fuel idx : Nat) (t : List Char) (h : ∀ c ∈ t, charEqCI ci o c = false) :
    markerPassF ci (o :: os) cls fuel idx t = (t, []) := by
  cases fuel with
  | zero => rfl
  | succ f => simp only [markerPassF, findMM_none ci o os cls t h]

theorem forcedF_id : ∀ (fuel idx : Nat) (t : List Char),
    (∀ c ∈ t, isQWXY c = false) → forcedF fuel idx t = (t, []) := by
  intro fuel
  induction fuel with
  | zero => intro idx t _; rfl
  | succ f ih =>
    intro idx t h
    cases t with
    | nil => rfl
    | cons c cs =>
      simp only [forcedF]
      by_cases hw : isWordCharA c = true
      · rw [if_pos hw]
        have hrq : (c :: cs.takeWhile isWordCharA).any isQWXY = false := by
          rw [List.any_eq_false]
          intro d hd
          rcases List.mem_cons.mp hd with he | hm
          · rw [he]; simp [h c (List.mem_cons_self _ _)]
          · simp [h d (List.mem_cons_of_mem _ ((List.takeWhile_sublist _).mem hm))]
        rw [if_neg (by rw [hrq]; simp)]
        rw [ih idx _ (fun d hd => h d (List.mem_cons_of_mem _
          ((List.dropWhile_sublist _).mem hd)))]
        simp [List.takeWhile_append_dropWhile]
      · rw [if_neg hw]
        rw [ih idx cs (fun d hd => h d (List.mem_cons_of_mem _ hd))]

theorem foldl_id {α : Type} (F : α → List Char → List Char) (t : List Char) :
    ∀ (l : List α), (∀ a ∈ l, F a t = t) →
    l.foldl (fun acc a => F a acc) t = t := by
  intro l
  induction l with
  | nil => intro _; rfl
  | cons a l ih =>
    intro h
    simp only [List.foldl, h a (List.mem_cons_self _ _)]
    exact ih (fun b hb => h b (List.mem_cons_of_mem _ hb))

/-! ### Two-character-substring absence over letter images -/

theorem matchY_flat_false (g : Char → List Char) (S : List Char) (y : Char)
    (hne : ∀ c ∈ S, g c ≠ []) (hhead : ∀ c ∈ S, (g c).head? ≠ some y) :
    ∀ (ls : List Char), (∀ c ∈ ls, c ∈ S) →
    matchesAt false [y] ((ls.map g).flatten) = false := by
  intro ls hmem
  cases ls with
  | nil => rfl
  | cons c ls =>
    have hc := hmem c (List.mem_cons_self _ _)
    cases hgc : g c with
    | nil => exact absurd hgc (hne c hc)
    | cons a tl =>
      have ha : (y == a) = false := by
        refine beq_eq_false_iff_ne.mpr (fun he => hhead c hc ?_)
        rw [hgc, ← he]
        rfl
      simp only [List.map_cons, List.flatten_cons, hgc, List.cons_append]
      simp [matchesAt, charEqCI, ha]

theorem hasSub2_flat_false (g : Char → List Char) (S : List Char) (x y : Char)
    (hne : ∀ c ∈ S, g c ≠ []) (hlen : ∀ c ∈ S, (g c).length ≤ 2)
    (hhead : ∀ c ∈ S, (g c).head? ≠ some y)
    (hnp : ∀ c ∈ S, g c ≠ [x, y]) :
    ∀ (ls : List Char), (∀ c ∈ ls, c ∈ S) →
    hasSub false [x, y] ((ls.map g).flatten) = false := by
  intro ls
  induction ls with
  | nil => intro _; rfl
  | cons c ls ih =>
    intro hmem
    have hc := hmem c (List.mem_cons_self _ _)
    have hmem2 : ∀ d ∈ ls, d ∈ S := fun d hd => hmem d (List.mem_cons_of_mem _ hd)
    have hmJ : matchesAt false [y] ((ls.map g).flatten) = false :=
      matchY_flat_false g S y hne hhead ls hmem2
    have hJ : hasSub false [x, y] ((ls.map g).flatten) = false := ih hmem2
    simp only [hasSub] at hJ ⊢
    cases hgc : g c with
    | nil => exact absurd hgc (hne c hc)
    | cons a tl =>
      cases tl with
      | nil =>
        simp only [List.map_cons, List.flatten_cons, hgc, List.cons_append,
          List.nil_append]
        have hm1 : matchesAt false [x, y] (a :: (ls.map g).flatten) = false := by
          simp [matchesAt, charEqCI, hmJ]
        simp only [findIdx0, hm1, Bool.false_eq_true, if_false, isSome_mapAdd]
        exact hJ
      | cons b tl2 =>
        have htl2 : tl2 = [] := by
          have h2 := hlen c hc
          rw [hgc] at h2
          simp only [List.length_cons] at h2
          exact List.eq_nil_of_length_eq_zero (by omega)
        subst htl2
        simp only [List.map_cons, List.flatten_cons, hgc, List.cons_append,
          List.nil_append]
        have hm1 : matchesAt false [x, y] (a :: b :: (ls.map g).flatten) = false := by
          by_cases hax : (x == a) = true
          · have hby : (y == b) = false := by
              refine beq_eq_false_iff_ne.mpr (fun he => hnp c hc ?_)
              rw [hgc, ← he, ← (beq_iff_eq.mp hax)]
            simp [matchesAt, charEqCI, hby]
          · rw [Bool.not_eq_true] at hax
            simp [matchesAt, charEqCI, hax]
        have hm2 : matchesAt false [x, y] (b :: (ls.map g).flatten) = false := by
          simp [matchesAt, charEqCI, hmJ]
        simp only [findIdx0, hm1, hm2, Bool.false_eq_true, if_false, isSome_mapAdd]
        exact hJ

/-! ### The digraph-merge step over letter images -/

theorem replAll_img (g : Char → List Char) (S : List Char) (x y : Char) (rep : List Char)
    (hne : ∀ c ∈ S, g c ≠ []) (hlen : ∀ c ∈ S, (g c).length ≤ 2)
    (hhead : ∀ c ∈ S, (g c).head? ≠ some y) :
    ∀ (ls : List Char), (∀ c ∈ ls, c ∈ S) →
    ∀ (fuel : Nat), ((ls.map g).flatten).length ≤ fuel →
    replAllF [x, y] rep fuel ((ls.map g).flatten)
      = (ls.map (fun c => if g c = [x, y] then rep else g c)).flatten := by
  intro ls
  induction ls with
  | nil =>
    intro _ fuel _
    cases fuel <;> rfl
  | cons c ls ih =>
    intro hmem fuel hfuel
    have hc := hmem c (List.mem_cons_self _ _)
    have hmem2 : ∀ d ∈ ls, d ∈ S := fun d hd => hmem d (List.mem_cons_of_mem _ hd)
    have hmJ : matchesAt false [y] ((ls.map g).flatten) = false :=
      matchY_flat_false g S y hne hhead ls hmem2
    cases hgc : g c with
    | nil => exact absurd hgc (hne c hc)
    | cons a tl =>
      rw [List.map_cons, List.flatten_cons, hgc] at hfuel ⊢
      cases tl with
      | nil =>
        rw [List.cons_append, List.nil_append] at hfuel ⊢
        cases fuel with
        | zero => simp at hfuel
        | succ f =>
          have hm1 : matchesAt false [x, y] (a :: (ls.map g).flatten) = false := by
            simp [matchesAt, charEqCI, hmJ]
          simp only [replAllF, hm1, Bool.and_false, Bool.false_eq_true, if_false]
          rw [ih hmem2 f (by simpa using Nat.le_of_succ_le_succ hfuel)]
          rw [List.map_cons, List.flatten_cons,
            if_neg (by rw [hgc]; intro hx; exact absurd (congrArg List.length hx) (by simp)),
            hgc, List.cons_append, List.nil_append]
      | cons b tl2 =>
        have htl2 : tl2 = [] := by
          have h2 := hlen c hc
          rw [hgc] at h2
          simp only [List.length_cons] at h2
          exact List.eq_nil_of_length_eq_zero (by omega)
        subst htl2
        rw [List.cons_append, List.cons_append, List.nil_append] at hfuel ⊢
        by_cases hpat : g c = [x, y]
        · have hax : a = x ∧ b = y := by
            rw [hgc] at hpat
            simpa using hpat
          cases fuel with
          | zero => simp at hfuel
          | succ f =>
            have hm1 : matchesAt false [x, y] (a :: b :: (ls.map g).flatten) = true := by
              rw [hax.1, hax.2]
              simp [matchesAt, charEqCI]
            simp only [replAllF, hm1, Bool.and_true, List.isEmpty_cons,
              Bool.not_false, Bool.true_and, if_pos]
            rw [show List.drop ([x, y].length - 1) (b :: (ls.map g).flatten)
              = (ls.map g).flatten from rfl]
            rw [ih hmem2 f (by simp at hfuel ⊢; omega)]
            rw [List.map_cons, List.flatten_cons, if_pos hpat]
        · cases fuel with
          | zero => simp at hfuel
          | succ f =>
            cases f with
            | zero => simp at hfuel
            | succ f2 =>
              have hm1 : matchesAt false [x, y] (a :: b :: (ls.map g).flatten) = false := by
                by_cases hax : (x == a) = true
                · have hby : (y == b) = false := by
                    refine beq_eq_false_iff_ne.mpr (fun he => hpat ?_)
                    rw [hgc, ← he, ← (beq_iff_eq.mp hax)]
                  simp [matchesAt, charEqCI, hby]
                · rw [Bool.not_eq_true] at hax
                  simp [matchesAt, charEqCI, hax]
              have hm2 : matchesAt false [x, y] (b :: (ls.map g).flatten) = false := by
                simp [matchesAt, charEqCI, hmJ]
              simp only [replAllF, hm1, hm2, Bool.and_false, Bool.false_eq_true, if_false]
              rw [ih hmem2 f2 (by simp at hfuel ⊢; omega)]
              rw [List.map_cons, List.flatten_cons, if_neg hpat, hgc,
                List.cons_append]
              rfl

theorem toLatin_flat (ls : List Char) :
    ls ≠ [] → toLatin ls = (ls.map latImg).flatten := by
  intro h
  unfold toLatin
  rw [if_neg h, foldl_append_join]
  rfl

/-! ### The scan loop on placeholder-free text -/

theorem scanF_plain : ∀ (fuel : Nat) (res : List Char) (i : Nat) (acc : List Char),
    res.length - i < fuel → (∀ c ∈ res, c ≠ puaChar) →
    scanF res fuel i acc
      = some (acc ++ ((res.drop i).filter (fun c => !(c == zwnj))).map lat2cyrD) := by
  intro fuel
  induction fuel with
  | zero => intro res i acc h _; exact absurd h (Nat.not_lt_zero _)
  | succ f ih =>
    intro res i acc hf hpua
    by_cases hi : i < res.length
    · obtain ⟨c, rest2, hd⟩ : ∃ c rest2, res.drop i = c :: rest2 := by
        cases hcd : res.drop i with
        | nil =>
          have hl := List.length_drop i res
          rw [hcd] at hl
          simp at hl
          omega
        | cons c r => exact ⟨c, r, rfl⟩
      have hrest2 : rest2 = res.drop (i + 1) := by
        have h2 : res.drop (i + 1) = List.drop 1 (res.drop i) := by
          rw [List.drop_drop]
        rw [h2, hd]
        rfl
      have hnone : indexOfFrom skipPre res i = none := by
        unfold indexOfFrom
        rw [show skipPre = puaChar :: "__SKIP__".data from rfl]
        rw [findIdx0_none_of_head puaChar _ (res.drop i)
          (fun d hd2 he => (hpua d (List.mem_of_mem_drop hd2)) he.symm)]
        rfl
      have hstep : latinScanStep res i acc
          = if c = zwnj then (i + 1, acc) else (i + 1, acc ++ [lat2cyrD c]) := by
        unfold latinScanStep
        rw [hnone, hd]
        rfl
      rw [show scanF res (f + 1) i acc
          = scanF res f (latinScanStep res i acc).1 (latinScanStep res i acc).2 from by
        simp only [scanF, if_pos hi]]
      rw [hd]
      by_cases hz : c = zwnj
      · rw [hstep, if_pos hz]
        dsimp only
        rw [ih res (i + 1) acc (by omega) hpua, hrest2]
        rw [List.filter_cons, show (!(c == zwnj)) = false from by simp [hz]]
        simp
      · rw [hstep, if_neg hz]
        dsimp only
        rw [ih res (i + 1) (acc ++ [lat2cyrD c]) (by omega) hpua, hrest2]
        rw [List.filter_cons, show (!(c == zwnj)) = true from by simp [hz]]
        simp [List.append_assoc]
    · have hnil : res.drop i = [] := List.drop_eq_nil_of_le (by omega)
      simp only [scanF, if_neg hi, hnil]
      simp

/-! ### Exception pass does nothing on digraph-free text -/

theorem hasSub_ci_false (p : List Char) (x y : Char) (t : List Char)
    (hkey : hasSub false [x, y] (p.map lowerChar) = true)
    (habs : hasSub false [x, y] (t.map lowerChar) = false) :
    hasSub true p t = false := by
  by_contra hx
  rw [Bool.not_eq_false] at hx
  have h1 : hasSub false (p.map lowerChar) (t.map lowerChar) = true := by
    unfold hasSub at hx ⊢
    rw [← findIdx0_ci_lower]
    exact hx
  have h2 := (hasSub_infix_iff _ _).mp h1
  have h3 := (hasSub_infix_iff _ _).mp hkey
  have h4 := (hasSub_infix_iff [x, y] (t.map lowerChar)).mpr (h3.trans h2)
  rw [habs] at h4
  exact absurd h4 (by simp)

set_option maxHeartbeats 4000000 in
theorem exc_keys : ∀ e ∈ exceptionEntries, ∀ p ∈ e.2,
    hasSub false [e.1.1, e.1.2] (p.data.map lowerChar) = true := by decide

theorem handleDigraphExceptions_id (t : List Char)
    (h1 : hasSub false ['d', 'j'] (t.map lowerChar) = false)
    (h2 : hasSub false ['d', 'ž'] (t.map lowerChar) = false)
    (h3 : hasSub false ['n', 'j'] (t.map lowerChar) = false) :
    handleDigraphExceptions t = t := by
  unfold handleDigraphExceptions
  apply foldl_id
  intro e he
  apply foldl_id
  intro p hp
  show ciReplaceAll p.data (splitKey e.1.1 e.1.2) t = t
  unfold ciReplaceAll
  apply ciReplF_id
  have hmem3 : e = (('d','j'), djPats) ∨ e = (('d','ž'), dzPats) ∨ e = (('n','j'), njPats) := by
    simpa [exceptionEntries] using he
  have habs : hasSub false [e.1.1, e.1.2] (t.map lowerChar) = false := by
    rcases hmem3 with he2 | he2 | he2 <;> (subst he2; assumption)
  exact hasSub_ci_false p.data e.1.1 e.1.2 t (exc_keys e he p hp) habs

/-- Models the case-sensitivity of the exception guard's inner replacement:
when the raw text contains none of the three lowercase key digraphs, the
exception pass leaves it unchanged even where a pattern matches, because
each matched slice is key-free and `splitKey` is the identity on it. -/
theorem handleDigraphExceptions_gid (t : List Char)
    (h1 : hasSub false ['d', 'j'] t = false)
    (h2 : hasSub false ['d', 'ž'] t = false)
    (h3 : hasSub false ['n', 'j'] t = false) :
    handleDigraphExceptions t = t := by
  unfold handleDigraphExceptions
  apply foldl_id
  intro e he
  apply foldl_id
  intro p hp
  show ciReplaceAll p.data (splitKey e.1.1 e.1.2) t = t
  have habs : hasSub false [e.1.1, e.1.2] t = false := by
    have hmem3 : e = (('d', 'j'), djPats) ∨ e = (('d', 'ž'), dzPats)
        ∨ e = (('n', 'j'), njPats) := by
      simpa [exceptionEntries] using he
    rcases hmem3 with he2 | he2 | he2 <;> (subst he2; assumption)
  unfold ciReplaceAll
  apply ciReplF_gid
  intro m hm
  have habs_m : hasSub false [e.1.1, e.1.2] m = false := by
    by_contra hx
    rw [Bool.not_eq_false] at hx
    have h4 := (hasSub_infix_iff _ t).mpr (((hasSub_infix_iff _ m).mp hx).trans hm)
    rw [habs] at h4
    exact absurd h4 (by simp)
  show splitKey e.1.1 e.1.2 m = m
  unfold splitKey replaceAllLit
  exact replAllF_id _ _ m.length m habs_m

/-! ### The merge loop over letter images -/

theorem mergeStep1 (ls : List Char) (hmem : ∀ c ∈ ls, c ∈ allowedCyr) :
    replaceAllLit ['L', 'j'] ['Љ'] ((ls.map latImg).flatten)
      = (ls.map img1).flatten :=
  replAll_img latImg allowedCyr 'L' 'j' ['Љ']
    (by decide) (by decide) (by decide) ls hmem _ (Nat.le_refl _)

theorem mergeStep2 (ls : List Char) (hmem : ∀ c ∈ ls, c ∈ allowedCyr) :
    replaceAllLit ['N', 'j'] ['Њ'] ((ls.map img1).flatten)
      = (ls.map img2).flatten :=
  replAll_img img1 allowedCyr 'N' 'j' ['Њ']
    (by decide) (by decide) (by decide) ls hmem _ (Nat.le_refl _)

theorem mergeStep3 (ls : List Char) (hmem : ∀ c ∈ ls, c ∈ allowedCyr) :
    replaceAllLit ['D', 'ž'] ['Џ'] ((ls.map img2).flatten)
      = (ls.map img3).flatten :=
  replAll_img img2 allowedCyr 'D' 'ž' ['Џ']
    (by decide) (by decide) (by decide) ls hmem _ (Nat.le_refl _)

theorem mergeStep4 (ls : List Char) (hmem : ∀ c ∈ ls, c ∈ allowedCyr) :
    replaceAllLit ['l', 'j'] ['љ'] ((ls.map img3).flatten)
      = (ls.map img4).flatten :=
  replAll_img img3 allowedCyr 'l' 'j' ['љ']
    (by decide) (by decide) (by decide) ls hmem _ (Nat.le_refl _)

theorem mergeStep5 (ls : List Char) (hmem : ∀ c ∈ ls, c ∈ allowedCyr) :
    replaceAllLit ['n', 'j'] ['њ'] ((ls.map img4).flatten)
      = (ls.map img5).flatten :=
  replAll_img img4 allowedCyr 'n' 'j' ['њ']
    (by decide) (by decide) (by decide) ls hmem _ (Nat.le_refl _)

theorem mergeStep6 (ls : List Char) (hmem : ∀ c ∈ ls, c ∈ allowedCyr) :
    replaceAllLit ['d', 'ž'] ['џ'] ((ls.map img5).flatten)
      = (ls.map img6).flatten :=
  replAll_img img5 allowedCyr 'd' 'ž' ['џ']
    (by decide) (by decide) (by decide) ls hmem _ (Nat.le_refl _)

theorem mergeDigraphs_flat (ls : List Char) (hmem : ∀ c ∈ ls, c ∈ allowedCyr) :
    mergeDigraphs ((ls.map latImg).flatten) = (ls.map img6).flatten := by
  unfold mergeDigraphs
  simp only [digraphList, List.foldl]
  rw [mergeStep1 ls hmem, mergeStep2 ls hmem, mergeStep3 ls hmem,
    mergeStep4 ls hmem, mergeStep5 ls hmem, mergeStep6 ls hmem]

/-! ### Assembly of the round trip -/

theorem flatten_singletons : ∀ ls : List Char, (ls.map (fun c => [c])).flatten = ls := by
  intro ls
  induction ls with
  | nil => rfl
  | cons c cs ih => simp [ih]

theorem flat_ne_nil (g : Char → List Char) (S : List Char) (hne : ∀ c ∈ S, g c ≠ [])
    (ls : List Char) (hmem : ∀ c ∈ ls, c ∈ S) (h : ls ≠ []) :
    (ls.map g).flatten ≠ [] := by
  cases ls with
  | nil => exact absurd rfl h
  | cons c cs =>
    cases hgc : g c with
    | nil => exact absurd hgc (hne c (hmem c (List.mem_cons_self _ _)))
    | cons a tl => simp [hgc]

theorem mem_flat {g : Char → List Char} {ls : List Char} {d : Char}
    (h : d ∈ (ls.map g).flatten) : ∃ l ∈ ls, d ∈ g l := by
  rcases List.mem_flatten.mp h with ⟨u, hu, hd⟩
  rcases List.mem_map.mp hu with ⟨l, hl, rfl⟩
  exact ⟨l, hl, hd⟩

set_option maxHeartbeats 400000000 in
/-- C1 counterexample: as stated, the round trip fails. The two mapped
letters н and ј produce the Latin image `nj`, which the digraph merge of
`toCyrillic` collapses into the single letter њ, so
`toCyrillic (toLatin "нј")` returns `"њ"`, not `"нј"`. (Letters whose
Latin images match a digraph-exception pattern fail as well, e.g.
`toCyrillic (toLatin "тањуг") = "танјуг"`.) -/
theorem claim_C1_cex :
    toCyrillic (toLatin "нј".data) none = Except.ok (some "њ".data)
  ∧ ("нј".data.all fun c => (cyr2lat c).isSome) = true
  ∧ ("њ".data == "нј".data) = false :=
  ⟨rfl, by decide, by decide⟩

set_option maxHeartbeats 4000000 in
/-- C1 (amended): for every text composed purely of mapped Cyrillic letters
other than the four lowercase letters ј, ж, њ, џ (through which the digraph
machinery makes the claim fail, see `claim_C1_cex`),
`toCyrillic (toLatin text)` with no skip options returns the text
unchanged. The capitals Ј, Ж, Њ, Џ round-trip and are covered: every merge
pattern requires a lowercase second character, and the exception guard's
inner replacement is case-sensitive, so the images `Nj`/`Dž` are never
split and are always merged back. The proof walks the whole pipeline: every
skip pass finds nothing, every matched digraph-exception slice is key-free
and left unchanged, the six digraph merges collapse exactly the images of
љ/Љ/Њ/Џ back into single letters, and the scan maps each remaining Latin
letter back to its Cyrillic source. -/
theorem claim_C1 (ls : List Char) (hmem : ∀ c ∈ ls, c ∈ allowedCyr) :
    toCyrillic (toLatin ls) none = Except.ok (some ls) := by
  by_cases hnil : ls = []
  · subst hnil; rfl
  · rw [toLatin_flat ls hnil]
    have hTne : (ls.map latImg).flatten ≠ [] :=
      flat_ne_nil latImg allowedCyr (by decide) ls hmem hnil
    have hmark : markerPassF false "<skip>".data "</skip>".data
        (((ls.map latImg).flatten).length + 1) 0 ((ls.map latImg).flatten)
        = ((ls.map latImg).flatten, []) := by
      rw [show ("<skip>".data : List Char) = '<' :: "skip>".data from rfl]
      apply markerPassF_id
      intro c hc
      rcases mem_flat hc with ⟨l, hl, hcl⟩
      exact (by decide : ∀ l ∈ allowedCyr, ∀ d ∈ latImg l,
        charEqCI false '<' d = false) l (hmem l hl) c hcl
    have hforced : forcedF (((ls.map latImg).flatten).length + 1) 0
        ((ls.map latImg).flatten) = ((ls.map latImg).flatten, []) := by
      apply forcedF_id
      intro c hc
      rcases mem_flat hc with ⟨l, hl, hcl⟩
      exact (by decide : ∀ l ∈ allowedCyr, ∀ d ∈ latImg l,
        isQWXY d = false) l (hmem l hl) c hcl
    have hexc : handleDigraphExceptions ((ls.map latImg).flatten)
        = (ls.map latImg).flatten := by
      apply handleDigraphExceptions_gid
      · exact hasSub2_flat_false latImg allowedCyr 'd' 'j'
          (by decide) (by decide) (by decide) (by decide) ls hmem
      · exact hasSub2_flat_false latImg allowedCyr 'd' 'ž'
          (by decide) (by decide) (by decide) (by decide) ls hmem
      · exact hasSub2_flat_false latImg allowedCyr 'n' 'j'
          (by decide) (by decide) (by decide) (by decide) ls hmem
    have hmerge := mergeDigraphs_flat ls hmem
    have hscan : scanF ((ls.map img6).flatten) (((ls.map img6).flatten).length + 2) 0 []
        = some ls := by
      rw [scanF_plain _ _ 0 [] (by omega)
        (fun c hc => by
          rcases mem_flat hc with ⟨l, hl, hcl⟩
          exact (by decide : ∀ l ∈ allowedCyr, ∀ d ∈ img6 l, d ≠ puaChar)
            l (hmem l hl) c hcl)]
      rw [List.drop_zero, List.nil_append, List.filter_flatten, List.map_flatten,
        List.map_map, List.map_map]
      have hpt : ∀ c ∈ ls,
          ((List.map lat2cyrD ∘ List.filter (fun d => !(d == zwnj))) ∘ img6) c = [c] :=
        fun c hc =>
          (by decide : ∀ l ∈ allowedCyr,
            ((img6 l).filter (fun d => !(d == zwnj))).map lat2cyrD = [l]) c (hmem c hc)
      rw [List.map_congr_left hpt, flatten_singletons]
    have hstrip : zwnjStrip ls = ls :=
      replAll_single_id zwnj [] ls.length ls
        (fun c hc he => (by decide : ∀ l ∈ allowedCyr, zwnj ≠ l) c (hmem c hc) he)
    unfold toCyrillic
    rw [if_neg hTne]
    dsimp only [Option.bind, Option.getD]
    rw [if_neg (by decide : ¬ ("<skip>".data : List Char) = "</skip>".data)]
    rw [show (!true) = false from rfl]
    rw [hmark]
    dsimp only
    rw [hforced]
    dsimp only
    rw [List.length_nil]
    rw [show callerWords false [] 0 ((ls.map latImg).flatten)
        = ((ls.map latImg).flatten, []) from rfl]
    dsimp only
    rw [hexc, hmerge, hscan]
    dsimp only
    simp only [restoreFrom, List.append_nil, List.nil_append]
    rw [hstrip]
/-- Witness for C1 at a concrete input (it includes the lowercase digraph
letter љ and the capital digraph letter Џ, so both the lowercase and the
capital merge-back paths are exercised). -/
theorem claim_C1_witness :
    toCyrillic (toLatin "Џакљубав".data) none = Except.ok (some "Џакљубав".data) :=
  claim_C1 "Џакљубав".data (by decide)

/-! ### Staged evaluation of the digraph-exception fold -/

/-- Models nothing new: a pattern table whose entries all miss `t` leaves
`t` unchanged under the exception fold. -/
theorem foldl_all_id (g : List Char → List Char) (ps : List String) (t : List Char)
    (h : ∀ p ∈ ps, hasSub true p.data t = false) :
    ps.foldl (fun acc p => ciReplaceAll p.data g acc) t = t := by
  apply foldl_id
  intro p hp
  show ciReplaceAll p.data g t = t
  unfold ciReplaceAll
  exact ciReplF_id p.data g t.length t (h p hp)

/-- Reduces a whole-table miss to the absence of the two-character key: every
entry of a table contains its key, so a key-free text is missed by every
entry. -/
theorem tbl_misses (x y : Char) (ps : List String) (t : List Char)
    (hkeys : ∀ p ∈ ps, hasSub false [x, y] (p.data.map lowerChar) = true)
    (habs : hasSub false [x, y] (t.map lowerChar) = false) :
    ∀ p ∈ ps, hasSub true p.data t = false :=
  fun p hp => hasSub_ci_false p.data x y t (hkeys p hp) habs

/-- Every `dj` entry contains the key `dj` (case-insensitively). -/
theorem dj_keys : ∀ p ∈ djPats, hasSub false ['d', 'j'] (p.data.map lowerChar) = true :=
  exc_keys (('d', 'j'), djPats) (by unfold exceptionEntries; exact List.mem_cons_self _ _)

/-- Every `dž` entry contains the key `dž` (case-insensitively). -/
theorem dz_keys : ∀ p ∈ dzPats, hasSub false ['d', 'ž'] (p.data.map lowerChar) = true :=
  exc_keys (('d', 'ž'), dzPats)
    (by unfold exceptionEntries
        exact List.mem_cons_of_mem _ (List.mem_cons_self _ _))

/-- Every `nj` entry contains the key `nj` (case-insensitively). -/
theorem nj_keys : ∀ p ∈ njPats, hasSub false ['n', 'j'] (p.data.map lowerChar) = true :=
  exc_keys (('n', 'j'), njPats)
    (by unfold exceptionEntries
        exact List.mem_cons_of_mem _ (List.mem_cons_of_mem _ (List.mem_cons_self _ _)))

/-- Evaluates one pattern-table fold when exactly one entry (at position `k`)
acts: the entries before `k` miss `t`, the entry at `k` rewrites `t` to `u`,
and the entries after `k` miss `u`. -/
theorem foldl_hit (g : List Char → List Char) (ps : List String) (k : Nat)
    (pat : String) (rest : List String) (t u : List Char)
    (hdrop : ps.drop k = pat :: rest)
    (hpre : ∀ p ∈ ps.take k, hasSub true p.data t = false)
    (hw : ciReplaceAll pat.data g t = u)
    (hrest : ∀ p ∈ rest, hasSub true p.data u = false) :
    ps.foldl (fun acc p => ciReplaceAll p.data g acc) t = u := by
  have hps : ps = ps.take k ++ pat :: rest := by rw [← hdrop, List.take_append_drop]
  conv_lhs => rw [hps]
  simp only [List.foldl_append, List.foldl_cons]
  rw [foldl_all_id g (ps.take k) t hpre, hw]
  exact foldl_all_id g rest u hrest

/-- Evaluates `handleDigraphExceptions` when the acting entry sits in the
`dj` table: the `dž` and `nj` tables miss the rewritten text. -/
theorem hde_hit1 (k : Nat) (pat : String) (rest : List String) (t u : List Char)
    (hdrop : djPats.drop k = pat :: rest)
    (hpre : ∀ p ∈ djPats.take k, hasSub true p.data t = false)
    (hw : ciReplaceAll pat.data (splitKey 'd' 'j') t = u)
    (hrest : ∀ p ∈ rest, hasSub true p.data u = false)
    (hdz : ∀ p ∈ dzPats, hasSub true p.data u = false)
    (hnj : ∀ p ∈ njPats, hasSub true p.data u = false) :
    handleDigraphExceptions t = u := by
  unfold handleDigraphExceptions exceptionEntries
  simp only [List.foldl_cons, List.foldl_nil]
  rw [foldl_hit _ djPats k pat rest t u hdrop hpre hw hrest]
  rw [foldl_all_id _ dzPats u hdz]
  exact foldl_all_id _ njPats u hnj

/-- Evaluates `handleDigraphExceptions` when the acting entry sits in the
`dž` table: the `dj` table misses the text and the `nj` table misses the
rewritten text. -/
theorem hde_hit2 (k : Nat) (pat : String) (rest : List String) (t u : List Char)
    (hdj : ∀ p ∈ djPats, hasSub true p.data t = false)
    (hdrop : dzPats.drop k = pat :: rest)
    (hpre : ∀ p ∈ dzPats.take k, hasSub true p.data t = false)
    (hw : ciReplaceAll pat.data (splitKey 'd' 'ž') t = u)
    (hrest : ∀ p ∈ rest, hasSub true p.data u = false)
    (hnj : ∀ p ∈ njPats, hasSub true p.data u = false) :
    handleDigraphExceptions t = u := by
  unfold handleDigraphExceptions exceptionEntries
  simp only [List.foldl_cons, List.foldl_nil]
  rw [foldl_all_id _ djPats t hdj]
  rw [foldl_hit _ dzPats k pat rest t u hdrop hpre hw hrest]
  exact foldl_all_id _ njPats u hnj

/-- Evaluates `handleDigraphExceptions` when the acting entry sits in the
`nj` table: the `dj` and `dž` tables miss the text. -/
theorem hde_hit3 (k : Nat) (pat : String) (rest : List String) (t u : List Char)
    (hdj : ∀ p ∈ djPats, hasSub true p.data t = false)
    (hdz : ∀ p ∈ dzPats, hasSub true p.data t = false)
    (hdrop : njPats.drop k = pat :: rest)
    (hpre : ∀ p ∈ njPats.take k, hasSub true p.data t = false)
    (hw : ciReplaceAll pat.data (splitKey 'n' 'j') t = u)
    (hrest : ∀ p ∈ rest, hasSub true p.data u = false) :
    handleDigraphExceptions t = u := by
  unfold handleDigraphExceptions exceptionEntries
  simp only [List.foldl_cons, List.foldl_nil]
  rw [foldl_all_id _ djPats t hdj]
  rw [foldl_all_id _ dzPats t hdz]
  exact foldl_hit _ njPats k pat rest t u hdrop hpre hw hrest

/-- Evaluates `toCyrillic` with default options on a text that triggers no
marker, forced-skip or caller-skip extraction: the call reduces to the
exception pass, the digraph merge, the character scan and the ZWNJ strip. -/
theorem toCyrillic_plain (t u : List Char) (ht : t ≠ [])
    (hlt : ∀ c ∈ t, charEqCI false '<' c = false)
    (hq : ∀ c ∈ t, isQWXY c = false)
    (hmerge : mergeDigraphs (handleDigraphExceptions t) = u)
    (hpua : ∀ c ∈ u, c ≠ puaChar) :
    toCyrillic t none
      = Except.ok (some (zwnjStrip ((u.filter (fun d => !(d == zwnj))).map lat2cyrD))) := by
  have hmark : markerPassF false "<skip>".data "</skip>".data (t.length + 1) 0 t
      = (t, []) := by
    rw [show ("<skip>".data : List Char) = '<' :: "skip>".data from rfl]
    exact markerPassF_id false '<' "skip>".data "</skip>".data (t.length + 1) 0 t hlt
  have hforced : forcedF (t.length + 1) 0 t = (t, []) := forcedF_id (t.length + 1) 0 t hq
  have hscan : scanF u (u.length + 2) 0 []
      = some ((u.filter (fun d => !(d == zwnj))).map lat2cyrD) := by
    rw [scanF_plain (u.length + 2) u 0 [] (by omega) hpua]
    rw [List.drop_zero, List.nil_append]
  unfold toCyrillic
  rw [if_neg ht]
  dsimp only [Option.bind, Option.getD]
  rw [if_neg (by decide : ¬ ("<skip>".data : List Char) = "</skip>".data)]
  rw [show (!true) = false from rfl]
  rw [hmark]
  dsimp only
  rw [hforced]
  dsimp only
  rw [List.length_nil]
  rw [show callerWords false [] 0 t = (t, []) from rfl]
  dsimp only
  rw [hmerge, hscan]
  dsimp only
  simp only [restoreFrom, List.append_nil, List.nil_append]




/-- Evaluates `noMergedChar` from an already-established conversion equation,
keeping the kernel away from the raw pipeline term. -/
theorem noMergedChar_eval (p : String) (c₁ c₂ : Char) (s : List Char)
    (h : toCyrillic p.data none = Except.ok (some s))
    (h1 : s.contains c₁ = false) (h2 : s.contains c₂ = false) :
    noMergedChar p c₁ c₂ = true := by
  unfold noMergedChar
  rw [h]
  show (!(s.contains c₁) && !(s.contains c₂)) = true
  rw [h1, h2]
  rfl

theorem c6dz0 : noMergedChar "feldžandarm" 'џ' 'Џ' = true := by
  have h : toCyrillic "feldžandarm".data none = Except.ok (some "фелджандарм".data) := by
    rw [toCyrillic_plain "feldžandarm".data "feld\u200Cžandarm".data (by decide) (by decide) (by decide)
          (by
            rw [hde_hit2 0 "feldžandarm" (dzPats.drop 1) "feldžandarm".data "feld\u200Cžandarm".data
              (tbl_misses 'd' 'j' djPats "feldžandarm".data dj_keys (by decide))
              rfl (by decide) (by decide)
              (tbl_misses 'd' 'ž' (dzPats.drop 1) "feld\u200Cžandarm".data
                (fun p hp => dz_keys p (List.mem_of_mem_drop hp)) (by decide))
              (tbl_misses 'n' 'j' njPats "feld\u200Cžandarm".data nj_keys (by decide))]
            rfl)
          (by decide)]
    rfl
  exact noMergedChar_eval _ _ _ _ h (by decide) (by decide)


theorem c6dz1 : noMergedChar "nadžanj" 'џ' 'Џ' = true := by
  have h : toCyrillic "nadžanj".data none = Except.ok (some "наджањ".data) := by
    rw [toCyrillic_plain "nadžanj".data "nad\u200Cžaњ".data (by decide) (by decide) (by decide)
          (by
            rw [hde_hit2 1 "nadžanj" (dzPats.drop 2) "nadžanj".data "nad\u200Cžanj".data
              (tbl_misses 'd' 'j' djPats "nadžanj".data dj_keys (by decide))
              rfl (by decide) (by decide)
              (tbl_misses 'd' 'ž' (dzPats.drop 2) "nad\u200Cžanj".data
                (fun p hp => dz_keys p (List.mem_of_mem_drop hp)) (by decide))
              (by decide)]
            rfl)
          (by decide)]
    rfl
  exact noMergedChar_eval _ _ _ _ h (by decide) (by decide)


theorem c6dz2 : noMergedChar "nadždrel" 'џ' 'Џ' = true := by
  have h : toCyrillic "nadždrel".data none = Except.ok (some "надждрел".data) := by
    rw [toCyrillic_plain "nadždrel".data "nad\u200Cždrel".data (by decide) (by decide) (by decide)
          (by
            rw [hde_hit2 2 "nadždrel" (dzPats.drop 3) "nadždrel".data "nad\u200Cždrel".data
              (tbl_misses 'd' 'j' djPats "nadždrel".data dj_keys (by decide))
              rfl (by decide) (by decide)
              (tbl_misses 'd' 'ž' (dzPats.drop 3) "nad\u200Cždrel".data
                (fun p hp => dz_keys p (List.mem_of_mem_drop hp)) (by decide))
              (tbl_misses 'n' 'j' njPats "nad\u200Cždrel".data nj_keys (by decide))]
            rfl)
          (by decide)]
    rfl
  exact noMergedChar_eval _ _ _ _ h (by decide) (by decide)


theorem c6dz3 : noMergedChar "nadžel" 'џ' 'Џ' = true := by
  have h : toCyrillic "nadžel".data none = Except.ok (some "наджел".data) := by
    rw [toCyrillic_plain "nadžel".data "nad\u200Cžel".data (by decide) (by decide) (by decide)
          (by
            rw [hde_hit2 3 "nadžel" (dzPats.drop 4) "nadžel".data "nad\u200Cžel".data
              (tbl_misses 'd' 'j' djPats "nadžel".data dj_keys (by decide))
              rfl (by decide) (by decide)
              (tbl_misses 'd' 'ž' (dzPats.drop 4) "nad\u200Cžel".data
                (fun p hp => dz_keys p (List.mem_of_mem_drop hp)) (by decide))
              (tbl_misses 'n' 'j' njPats "nad\u200Cžel".data nj_keys (by decide))]
            rfl)
          (by decide)]
    rfl
  exact noMergedChar_eval _ _ _ _ h (by decide) (by decide)


theorem c6dz4 : noMergedChar "nadžeo" 'џ' 'Џ' = true := by
  have h : toCyrillic "nadžeo".data none = Except.ok (some "наджео".data) := by
    rw [toCyrillic_plain "nadžeo".data "nad\u200Cžeo".data (by decide) (by decide) (by decide)
          (by
            rw [hde_hit2 4 "nadžeo" (dzPats.drop 5) "nadžeo".data "nad\u200Cžeo".data
              (tbl_misses 'd' 'j' djPats "nadžeo".data dj_keys (by decide))
              rfl (by decide) (by decide)
              (tbl_misses 'd' 'ž' (dzPats.drop 5) "nad\u200Cžeo".data
                (fun p hp => dz_keys p (List.mem_of_mem_drop hp)) (by decide))
              (tbl_misses 'n' 'j' njPats "nad\u200Cžeo".data nj_keys (by decide))]
            rfl)
          (by decide)]
    rfl
  exact noMergedChar_eval _ _ _ _ h (by decide) (by decide)


theorem c6dz5 : noMergedChar "nadžet" 'џ' 'Џ' = true := by
  have h : toCyrillic "nadžet".data none = Except.ok (some "наджет".data) := by
    rw [toCyrillic_plain "nadžet".data "nad\u200Cžet".data (by decide) (by decide) (by decide)
          (by
            rw [hde_hit2 5 "nadžet" (dzPats.drop 6) "nadžet".data "nad\u200Cžet".data
              (tbl_misses 'd' 'j' djPats "nadžet".data dj_keys (by decide))
              rfl (by decide) (by decide)
              (tbl_misses 'd' 'ž' (dzPats.drop 6) "nad\u200Cžet".data
                (fun p hp => dz_keys p (List.mem_of_mem_drop hp)) (by decide))
              (tbl_misses 'n' 'j' njPats "nad\u200Cžet".data nj_keys (by decide))]
            rfl)
          (by decide)]
    rfl
  exact noMergedChar_eval _ _ _ _ h (by decide) (by decide)


theorem c6dz6 : noMergedChar "nadživ" 'џ' 'Џ' = true := by
  have h : toCyrillic "nadživ".data none = Except.ok (some "наджив".data) := by
    rw [toCyrillic_plain "nadživ".data "nad\u200Cživ".data (by decide) (by decide) (by decide)
          (by
            rw [hde_hit2 6 "nadživ" (dzPats.drop 7) "nadživ".data "nad\u200Cživ".data
              (tbl_misses 'd' 'j' djPats "nadživ".data dj_keys (by decide))
              rfl (by decide) (by decide)
              (tbl_misses 'd' 'ž' (dzPats.drop 7) "nad\u200Cživ".data
                (fun p hp => dz_keys p (List.mem_of_mem_drop hp)) (by decide))
              (tbl_misses 'n' 'j' njPats "nad\u200Cživ".data nj_keys (by decide))]
            rfl)
          (by decide)]
    rfl
  exact noMergedChar_eval _ _ _ _ h (by decide) (by decide)


theorem c6dz7 : noMergedChar "nadžinj" 'џ' 'Џ' = true := by
  have h : toCyrillic "nadžinj".data none = Except.ok (some "наджињ".data) := by
    rw [toCyrillic_plain "nadžinj".data "nad\u200Cžiњ".data (by decide) (by decide) (by decide)
          (by
            rw [hde_hit2 7 "nadžinj" (dzPats.drop 8) "nadžinj".data "nad\u200Cžinj".data
              (tbl_misses 'd' 'j' djPats "nadžinj".data dj_keys (by decide))
              rfl (by decide) (by decide)
              (tbl_misses 'd' 'ž' (dzPats.drop 8) "nad\u200Cžinj".data
                (fun p hp => dz_keys p (List.mem_of_mem_drop hp)) (by decide))
              (by decide)]
            rfl)
          (by decide)]
    rfl
  exact noMergedChar_eval _ _ _ _ h (by decide) (by decide)


theorem c6dz8 : noMergedChar "nadžnj" 'џ' 'Џ' = true := by
  have h : toCyrillic "nadžnj".data none = Except.ok (some "наджњ".data) := by
    rw [toCyrillic_plain "nadžnj".data "nad\u200Cžњ".data (by decide) (by decide) (by decide)
          (by
            rw [hde_hit2 8 "nadžnj" (dzPats.drop 9) "nadžnj".data "nad\u200Cžnj".data
              (tbl_misses 'd' 'j' djPats "nadžnj".data dj_keys (by decide))
              rfl (by decide) (by decide)
              (tbl_misses 'd' 'ž' (dzPats.drop 9) "nad\u200Cžnj".data
                (fun p hp => dz_keys p (List.mem_of_mem_drop hp)) (by decide))
              (by decide)]
            rfl)
          (by decide)]
    rfl
  exact noMergedChar_eval _ _ _ _ h (by decide) (by decide)


theorem c6dz9 : noMergedChar "nadžrec" 'џ' 'Џ' = true := by
  have h : toCyrillic "nadžrec".data none = Except.ok (some "наджрец".data) := by
    rw [toCyrillic_plain "nadžrec".data "nad\u200Cžrec".data (by decide) (by decide) (by decide)
          (by
            rw [hde_hit2 9 "nadžrec" (dzPats.drop 10) "nadžrec".data "nad\u200Cžrec".data
              (tbl_misses 'd' 'j' djPats "nadžrec".data dj_keys (by decide))
              rfl (by decide) (by decide)
              (tbl_misses 'd' 'ž' (dzPats.drop 10) "nad\u200Cžrec".data
                (fun p hp => dz_keys p (List.mem_of_mem_drop hp)) (by decide))
              (tbl_misses 'n' 'j' njPats "nad\u200Cžrec".data nj_keys (by decide))]
            rfl)
          (by decide)]
    rfl
  exact noMergedChar_eval _ _ _ _ h (by decide) (by decide)


theorem c6dz10 : noMergedChar "nadžup" 'џ' 'Џ' = true := by
  have h : toCyrillic "nadžup".data none = Except.ok (some "наджуп".data) := by
    rw [toCyrillic_plain "nadžup".data "nad\u200Cžup".data (by decide) (by decide) (by decide)
          (by
            rw [hde_hit2 10 "nadžup" (dzPats.drop 11) "nadžup".data "nad\u200Cžup".data
              (tbl_misses 'd' 'j' djPats "nadžup".data dj_keys (by decide))
              rfl (by decide) (by decide)
              (tbl_misses 'd' 'ž' (dzPats.drop 11) "nad\u200Cžup".data
                (fun p hp => dz_keys p (List.mem_of_mem_drop hp)) (by decide))
              (tbl_misses 'n' 'j' njPats "nad\u200Cžup".data nj_keys (by decide))]
            rfl)
          (by decide)]
    rfl
  exact noMergedChar_eval _ _ _ _ h (by decide) (by decide)


theorem c6dz11 : noMergedChar "odžali" 'џ' 'Џ' = true := by
  have h : toCyrillic "odžali".data none = Except.ok (some "оджали".data) := by
    rw [toCyrillic_plain "odžali".data "od\u200Cžali".data (by decide) (by decide) (by decide)
          (by
            rw [hde_hit2 11 "odžali" (dzPats.drop 12) "odžali".data "od\u200Cžali".data
              (tbl_misses 'd' 'j' djPats "odžali".data dj_keys (by decide))
              rfl (by decide) (by decide)
              (tbl_misses 'd' 'ž' (dzPats.drop 12) "od\u200Cžali".data
                (fun p hp => dz_keys p (List.mem_of_mem_drop hp)) (by decide))
              (tbl_misses 'n' 'j' njPats "od\u200Cžali".data nj_keys (by decide))]
            rfl)
          (by decide)]
    rfl
  exact noMergedChar_eval _ _ _ _ h (by decide) (by decide)


theorem c6dz12 : noMergedChar "odžari" 'џ' 'Џ' = true := by
  have h : toCyrillic "odžari".data none = Except.ok (some "оджари".data) := by
    rw [toCyrillic_plain "odžari".data "od\u200Cžari".data (by decide) (by decide) (by decide)
          (by
            rw [hde_hit2 12 "odžari" (dzPats.drop 13) "odžari".data "od\u200Cžari".data
              (tbl_misses 'd' 'j' djPats "odžari".data dj_keys (by decide))
              rfl (by decide) (by decide)
              (tbl_misses 'd' 'ž' (dzPats.drop 13) "od\u200Cžari".data
                (fun p hp => dz_keys p (List.mem_of_mem_drop hp)) (by decide))
              (tbl_misses 'n' 'j' njPats "od\u200Cžari".data nj_keys (by decide))]
            rfl)
          (by decide)]
    rfl
  exact noMergedChar_eval _ _ _ _ h (by decide) (by decide)


theorem c6dz13 : noMergedChar "odžel" 'џ' 'Џ' = true := by
  have h : toCyrillic "odžel".data none = Except.ok (some "оджел".data) := by
    rw [toCyrillic_plain "odžel".data "od\u200Cžel".data (by decide) (by decide) (by decide)
          (by
            rw [hde_hit2 13 "odžel" (dzPats.drop 14) "odžel".data "od\u200Cžel".data
              (tbl_misses 'd' 'j' djPats "odžel".data dj_keys (by decide))
              rfl (by decide) (by decide)
              (tbl_misses 'd' 'ž' (dzPats.drop 14) "od\u200Cžel".data
                (fun p hp => dz_keys p (List.mem_of_mem_drop hp)) (by decide))
              (tbl_misses 'n' 'j' njPats "od\u200Cžel".data nj_keys (by decide))]
            rfl)
          (by decide)]
    rfl
  exact noMergedChar_eval _ _ _ _ h (by decide) (by decide)


theorem c6dz14 : noMergedChar "odžive" 'џ' 'Џ' = true := by
  have h : toCyrillic "odžive".data none = Except.ok (some "одживе".data) := by
    rw [toCyrillic_plain "odžive".data "od\u200Cžive".data (by decide) (by decide) (by decide)
          (by
            rw [hde_hit2 14 "odžive" (dzPats.drop 15) "odžive".data "od\u200Cžive".data
              (tbl_misses 'd' 'j' djPats "odžive".data dj_keys (by decide))
              rfl (by decide) (by decide)
              (tbl_misses 'd' 'ž' (dzPats.drop 15) "od\u200Cžive".data
                (fun p hp => dz_keys p (List.mem_of_mem_drop hp)) (by decide))
              (tbl_misses 'n' 'j' njPats "od\u200Cžive".data nj_keys (by decide))]
            rfl)
          (by decide)]
    rfl
  exact noMergedChar_eval _ _ _ _ h (by decide) (by decide)


theorem c6dz15 : noMergedChar "odživljava" 'џ' 'Џ' = true := by
  have h : toCyrillic "odživljava".data none = Except.ok (some "одживљава".data) := by
    rw [toCyrillic_plain "odživljava".data "od\u200Cživљava".data (by decide) (by decide) (by decide)
          (by
            rw [hde_hit2 15 "odživljava" (dzPats.drop 16) "odživljava".data "od\u200Cživljava".data
              (tbl_misses 'd' 'j' djPats "odživljava".data dj_keys (by decide))
              rfl (by decide) (by decide)
              (tbl_misses 'd' 'ž' (dzPats.drop 16) "od\u200Cživljava".data
                (fun p hp => dz_keys p (List.mem_of_mem_drop hp)) (by decide))
              (tbl_misses 'n' 'j' njPats "od\u200Cživljava".data nj_keys (by decide))]
            rfl)
          (by decide)]
    rfl
  exact noMergedChar_eval _ _ _ _ h (by decide) (by decide)


theorem c6dz16 : noMergedChar "odžubor" 'џ' 'Џ' = true := by
  have h : toCyrillic "odžubor".data none = Except.ok (some "оджубор".data) := by
    rw [toCyrillic_plain "odžubor".data "od\u200Cžubor".data (by decide) (by decide) (by decide)
          (by
            rw [hde_hit2 16 "odžubor" (dzPats.drop 17) "odžubor".data "od\u200Cžubor".data
              (tbl_misses 'd' 'j' djPats "odžubor".data dj_keys (by decide))
              rfl (by decide) (by decide)
              (tbl_misses 'd' 'ž' (dzPats.drop 17) "od\u200Cžubor".data
                (fun p hp => dz_keys p (List.mem_of_mem_drop hp)) (by decide))
              (tbl_misses 'n' 'j' njPats "od\u200Cžubor".data nj_keys (by decide))]
            rfl)
          (by decide)]
    rfl
  exact noMergedChar_eval _ _ _ _ h (by decide) (by decide)


theorem c6dz17 : noMergedChar "odžvaka" 'џ' 'Џ' = true := by
  have h : toCyrillic "odžvaka".data none = Except.ok (some "оджвака".data) := by
    rw [toCyrillic_plain "odžvaka".data "od\u200Cžvaka".data (by decide) (by decide) (by decide)
          (by
            rw [hde_hit2 17 "odžvaka" (dzPats.drop 18) "odžvaka".data "od\u200Cžvaka".data
              (tbl_misses 'd' 'j' djPats "odžvaka".data dj_keys (by decide))
              rfl (by decide) (by decide)
              (tbl_misses 'd' 'ž' (dzPats.drop 18) "od\u200Cžvaka".data
                (fun p hp => dz_keys p (List.mem_of_mem_drop hp)) (by decide))
              (tbl_misses 'n' 'j' njPats "od\u200Cžvaka".data nj_keys (by decide))]
            rfl)
          (by decide)]
    rfl
  exact noMergedChar_eval _ _ _ _ h (by decide) (by decide)


theorem c6dz18 : noMergedChar "odžval" 'џ' 'Џ' = true := by
  have h : toCyrillic "odžval".data none = Except.ok (some "оджвал".data) := by
    rw [toCyrillic_plain "odžval".data "od\u200Cžval".data (by decide) (by decide) (by decide)
          (by
            rw [hde_hit2 18 "odžval" (dzPats.drop 19) "odžval".data "od\u200Cžval".data
              (tbl_misses 'd' 'j' djPats "odžval".data dj_keys (by decide))
              rfl (by decide) (by decide)
              (tbl_misses 'd' 'ž' (dzPats.drop 19) "od\u200Cžval".data
                (fun p hp => dz_keys p (List.mem_of_mem_drop hp)) (by decide))
              (tbl_misses 'n' 'j' njPats "od\u200Cžval".data nj_keys (by decide))]
            rfl)
          (by decide)]
    rfl
  exact noMergedChar_eval _ _ _ _ h (by decide) (by decide)


theorem c6dz19 : noMergedChar "odžvać" 'џ' 'Џ' = true := by
  have h : toCyrillic "odžvać".data none = Except.ok (some "оджваћ".data) := by
    rw [toCyrillic_plain "odžvać".data "od\u200Cžvać".data (by decide) (by decide) (by decide)
          (by
            rw [hde_hit2 19 "odžvać" (dzPats.drop 20) "odžvać".data "od\u200Cžvać".data
              (tbl_misses 'd' 'j' djPats "odžvać".data dj_keys (by decide))
              rfl (by decide) (by decide)
              (tbl_misses 'd' 'ž' (dzPats.drop 20) "od\u200Cžvać".data
                (fun p hp => dz_keys p (List.mem_of_mem_drop hp)) (by decide))
              (tbl_misses 'n' 'j' njPats "od\u200Cžvać".data nj_keys (by decide))]
            rfl)
          (by decide)]
    rfl
  exact noMergedChar_eval _ _ _ _ h (by decide) (by decide)


theorem c6dz20 : noMergedChar "podžanr" 'џ' 'Џ' = true := by
  have h : toCyrillic "podžanr".data none = Except.ok (some "поджанр".data) := by
    rw [toCyrillic_plain "podžanr".data "pod\u200Cžanr".data (by decide) (by decide) (by decide)
          (by
            rw [hde_hit2 20 "podžanr" (dzPats.drop 21) "podžanr".data "pod\u200Cžanr".data
              (tbl_misses 'd' 'j' djPats "podžanr".data dj_keys (by decide))
              rfl (by decide) (by decide)
              (tbl_misses 'd' 'ž' (dzPats.drop 21) "pod\u200Cžanr".data
                (fun p hp => dz_keys p (List.mem_of_mem_drop hp)) (by decide))
              (tbl_misses 'n' 'j' njPats "pod\u200Cžanr".data nj_keys (by decide))]
            rfl)
          (by decide)]
    rfl
  exact noMergedChar_eval _ _ _ _ h (by decide) (by decide)


theorem c6dz21 : noMergedChar "podžel" 'џ' 'Џ' = true := by
  have h : toCyrillic "podžel".data none = Except.ok (some "поджел".data) := by
    rw [toCyrillic_plain "podžel".data "pod\u200Cžel".data (by decide) (by decide) (by decide)
          (by
            rw [hde_hit2 13 "odžel" (dzPats.drop 14) "podžel".data "pod\u200Cžel".data
              (tbl_misses 'd' 'j' djPats "podžel".data dj_keys (by decide))
              rfl (by decide) (by decide)
              (tbl_misses 'd' 'ž' (dzPats.drop 14) "pod\u200Cžel".data
                (fun p hp => dz_keys p (List.mem_of_mem_drop hp)) (by decide))
              (tbl_misses 'n' 'j' njPats "pod\u200Cžel".data nj_keys (by decide))]
            rfl)
          (by decide)]
    rfl
  exact noMergedChar_eval _ _ _ _ h (by decide) (by decide)


theorem c6dz22 : noMergedChar "podže" 'џ' 'Џ' = true := by
  have h : toCyrillic "podže".data none = Except.ok (some "подже".data) := by
    rw [toCyrillic_plain "podže".data "pod\u200Cže".data (by decide) (by decide) (by decide)
          (by
            rw [hde_hit2 22 "podže" (dzPats.drop 23) "podže".data "pod\u200Cže".data
              (tbl_misses 'd' 'j' djPats "podže".data dj_keys (by decide))
              rfl (by decide) (by decide)
              (tbl_misses 'd' 'ž' (dzPats.drop 23) "pod\u200Cže".data
                (fun p hp => dz_keys p (List.mem_of_mem_drop hp)) (by decide))
              (tbl_misses 'n' 'j' njPats "pod\u200Cže".data nj_keys (by decide))]
            rfl)
          (by decide)]
    rfl
  exact noMergedChar_eval _ _ _ _ h (by decide) (by decide)


theorem c6dz23 : noMergedChar "podžig" 'џ' 'Џ' = true := by
  have h : toCyrillic "podžig".data none = Except.ok (some "поджиг".data) := by
    rw [toCyrillic_plain "podžig".data "pod\u200Cžig".data (by decide) (by decide) (by decide)
          (by
            rw [hde_hit2 23 "podžig" (dzPats.drop 24) "podžig".data "pod\u200Cžig".data
              (tbl_misses 'd' 'j' djPats "podžig".data dj_keys (by decide))
              rfl (by decide) (by decide)
              (tbl_misses 'd' 'ž' (dzPats.drop 24) "pod\u200Cžig".data
                (fun p hp => dz_keys p (List.mem_of_mem_drop hp)) (by decide))
              (tbl_misses 'n' 'j' njPats "pod\u200Cžig".data nj_keys (by decide))]
            rfl)
          (by decide)]
    rfl
  exact noMergedChar_eval _ _ _ _ h (by decide) (by decide)


theorem c6dz24 : noMergedChar "podžiz" 'џ' 'Џ' = true := by
  have h : toCyrillic "podžiz".data none = Except.ok (some "поджиз".data) := by
    rw [toCyrillic_plain "podžiz".data "pod\u200Cžiz".data (by decide) (by decide) (by decide)
          (by
            rw [hde_hit2 24 "podžiz" (dzPats.drop 25) "podžiz".data "pod\u200Cžiz".data
              (tbl_misses 'd' 'j' djPats "podžiz".data dj_keys (by decide))
              rfl (by decide) (by decide)
              (tbl_misses 'd' 'ž' (dzPats.drop 25) "pod\u200Cžiz".data
                (fun p hp => dz_keys p (List.mem_of_mem_drop hp)) (by decide))
              (tbl_misses 'n' 'j' njPats "pod\u200Cžiz".data nj_keys (by decide))]
            rfl)
          (by decide)]
    rfl
  exact noMergedChar_eval _ _ _ _ h (by decide) (by decide)


theorem c6dz25 : noMergedChar "podžil" 'џ' 'Џ' = true := by
  have h : toCyrillic "podžil".data none = Except.ok (some "поджил".data) := by
    rw [toCyrillic_plain "podžil".data "pod\u200Cžil".data (by decide) (by decide) (by decide)
          (by
            rw [hde_hit2 25 "podžil" (dzPats.drop 26) "podžil".data "pod\u200Cžil".data
              (tbl_misses 'd' 'j' djPats "podžil".data dj_keys (by decide))
              rfl (by decide) (by decide)
              (tbl_misses 'd' 'ž' (dzPats.drop 26) "pod\u200Cžil".data
                (fun p hp => dz_keys p (List.mem_of_mem_drop hp)) (by decide))
              (tbl_misses 'n' 'j' njPats "pod\u200Cžil".data nj_keys (by decide))]
            rfl)
          (by decide)]
    rfl
  exact noMergedChar_eval _ _ _ _ h (by decide) (by decide)


theorem c6dz26 : noMergedChar "podžnje" 'џ' 'Џ' = true := by
  have h : toCyrillic "podžnje".data none = Except.ok (some "поджње".data) := by
    rw [toCyrillic_plain "podžnje".data "pod\u200Cžњe".data (by decide) (by decide) (by decide)
          (by
            rw [hde_hit2 26 "podžnje" (dzPats.drop 27) "podžnje".data "pod\u200Cžnje".data
              (tbl_misses 'd' 'j' djPats "podžnje".data dj_keys (by decide))
              rfl (by decide) (by decide)
              (tbl_misses 'd' 'ž' (dzPats.drop 27) "pod\u200Cžnje".data
                (fun p hp => dz_keys p (List.mem_of_mem_drop hp)) (by decide))
              (by decide)]
            rfl)
          (by decide)]
    rfl
  exact noMergedChar_eval _ _ _ _ h (by decide) (by decide)


theorem c6dz27 : noMergedChar "podžupan" 'џ' 'Џ' = true := by
  have h : toCyrillic "podžupan".data none = Except.ok (some "поджупан".data) := by
    rw [toCyrillic_plain "podžupan".data "pod\u200Cžupan".data (by decide) (by decide) (by decide)
          (by
            rw [hde_hit2 27 "podžupan" (dzPats.drop 28) "podžupan".data "pod\u200Cžupan".data
              (tbl_misses 'd' 'j' djPats "podžupan".data dj_keys (by decide))
              rfl (by decide) (by decide)
              (tbl_misses 'd' 'ž' (dzPats.drop 28) "pod\u200Cžupan".data
                (fun p hp => dz_keys p (List.mem_of_mem_drop hp)) (by decide))
              (tbl_misses 'n' 'j' njPats "pod\u200Cžupan".data nj_keys (by decide))]
            rfl)
          (by decide)]
    rfl
  exact noMergedChar_eval _ _ _ _ h (by decide) (by decide)


theorem c6dz28 : noMergedChar "predželu" 'џ' 'Џ' = true := by
  have h : toCyrillic "predželu".data none = Except.ok (some "преджелу".data) := by
    rw [toCyrillic_plain "predželu".data "pred\u200Cželu".data (by decide) (by decide) (by decide)
          (by
            rw [hde_hit2 28 "predželu" (dzPats.drop 29) "predželu".data "pred\u200Cželu".data
              (tbl_misses 'd' 'j' djPats "predželu".data dj_keys (by decide))
              rfl (by decide) (by decide)
              (tbl_misses 'd' 'ž' (dzPats.drop 29) "pred\u200Cželu".data
                (fun p hp => dz_keys p (List.mem_of_mem_drop hp)) (by decide))
              (tbl_misses 'n' 'j' njPats "pred\u200Cželu".data nj_keys (by decide))]
            rfl)
          (by decide)]
    rfl
  exact noMergedChar_eval _ _ _ _ h (by decide) (by decide)


theorem c6dz29 : noMergedChar "predživot" 'џ' 'Џ' = true := by
  have h : toCyrillic "predživot".data none = Except.ok (some "предживот".data) := by
    rw [toCyrillic_plain "predživot".data "pred\u200Cživot".data (by decide) (by decide) (by decide)
          (by
            rw [hde_hit2 29 "predživot" (dzPats.drop 30) "predživot".data "pred\u200Cživot".data
              (tbl_misses 'd' 'j' djPats "predživot".data dj_keys (by decide))
              rfl (by decide) (by decide)
              (tbl_misses 'd' 'ž' (dzPats.drop 30) "pred\u200Cživot".data
                (fun p hp => dz_keys p (List.mem_of_mem_drop hp)) (by decide))
              (tbl_misses 'n' 'j' njPats "pred\u200Cživot".data nj_keys (by decide))]
            rfl)
          (by decide)]
    rfl
  exact noMergedChar_eval _ _ _ _ h (by decide) (by decide)


theorem c6nj0 : noMergedChar "anjon" 'њ' 'Њ' = true := by
  have h : toCyrillic "anjon".data none = Except.ok (some "анјон".data) := by
    rw [toCyrillic_plain "anjon".data "an\u200Cjon".data (by decide) (by decide) (by decide)
          (by
            rw [hde_hit3 0 "anjon" (njPats.drop 1) "anjon".data "an\u200Cjon".data
              (tbl_misses 'd' 'j' djPats "anjon".data dj_keys (by decide))
              (tbl_misses 'd' 'ž' dzPats "anjon".data dz_keys (by decide))
              rfl (by decide) (by decide)
              (tbl_misses 'n' 'j' (njPats.drop 1) "an\u200Cjon".data
                (fun p hp => nj_keys p (List.mem_of_mem_drop hp)) (by decide))]
            rfl)
          (by decide)]
    rfl
  exact noMergedChar_eval _ _ _ _ h (by decide) (by decide)


theorem c6nj1 : noMergedChar "injaric" 'њ' 'Њ' = true := by
  have h : toCyrillic "injaric".data none = Except.ok (some "инјариц".data) := by
    rw [toCyrillic_plain "injaric".data "in\u200Cjaric".data (by decide) (by decide) (by decide)
          (by
            rw [hde_hit3 1 "injaric" (njPats.drop 2) "injaric".data "in\u200Cjaric".data
              (tbl_misses 'd' 'j' djPats "injaric".data dj_keys (by decide))
              (tbl_misses 'd' 'ž' dzPats "injaric".data dz_keys (by decide))
              rfl (by decide) (by decide)
              (tbl_misses 'n' 'j' (njPats.drop 2) "in\u200Cjaric".data
                (fun p hp => nj_keys p (List.mem_of_mem_drop hp)) (by decide))]
            rfl)
          (by decide)]
    rfl
  exact noMergedChar_eval _ _ _ _ h (by decide) (by decide)


theorem c6nj2 : noMergedChar "injekc" 'њ' 'Њ' = true := by
  have h : toCyrillic "injekc".data none = Except.ok (some "инјекц".data) := by
    rw [toCyrillic_plain "injekc".data "in\u200Cjekc".data (by decide) (by decide) (by decide)
          (by
            rw [hde_hit3 2 "injekc" (njPats.drop 3) "injekc".data "in\u200Cjekc".data
              (tbl_misses 'd' 'j' djPats "injekc".data dj_keys (by decide))
              (tbl_misses 'd' 'ž' dzPats "injekc".data dz_keys (by decide))
              rfl (by decide) (by decide)
              (tbl_misses 'n' 'j' (njPats.drop 3) "in\u200Cjekc".data
                (fun p hp => nj_keys p (List.mem_of_mem_drop hp)) (by decide))]
            rfl)
          (by decide)]
    rfl
  exact noMergedChar_eval _ _ _ _ h (by decide) (by decide)


theorem c6nj3 : noMergedChar "injekt" 'њ' 'Њ' = true := by
  have h : toCyrillic "injekt".data none = Except.ok (some "инјект".data) := by
    rw [toCyrillic_plain "injekt".data "in\u200Cjekt".data (by decide) (by decide) (by decide)
          (by
            rw [hde_hit3 3 "injekt" (njPats.drop 4) "injekt".data "in\u200Cjekt".data
              (tbl_misses 'd' 'j' djPats "injekt".data dj_keys (by decide))
              (tbl_misses 'd' 'ž' dzPats "injekt".data dz_keys (by decide))
              rfl (by decide) (by decide)
              (tbl_misses 'n' 'j' (njPats.drop 4) "in\u200Cjekt".data
                (fun p hp => nj_keys p (List.mem_of_mem_drop hp)) (by decide))]
            rfl)
          (by decide)]
    rfl
  exact noMergedChar_eval _ _ _ _ h (by decide) (by decide)


theorem c6nj4 : noMergedChar "injicira" 'њ' 'Њ' = true := by
  have h : toCyrillic "injicira".data none = Except.ok (some "инјицира".data) := by
    rw [toCyrillic_plain "injicira".data "in\u200Cjicira".data (by decide) (by decide) (by decide)
          (by
            rw [hde_hit3 4 "injicira" (njPats.drop 5) "injicira".data "in\u200Cjicira".data
              (tbl_misses 'd' 'j' djPats "injicira".data dj_keys (by decide))
              (tbl_misses 'd' 'ž' dzPats "injicira".data dz_keys (by decide))
              rfl (by decide) (by decide)
              (tbl_misses 'n' 'j' (njPats.drop 5) "in\u200Cjicira".data
                (fun p hp => nj_keys p (List.mem_of_mem_drop hp)) (by decide))]
            rfl)
          (by decide)]
    rfl
  exact noMergedChar_eval _ _ _ _ h (by decide) (by decide)


theorem c6nj5 : noMergedChar "injurij" 'њ' 'Њ' = true := by
  have h : toCyrillic "injurij".data none = Except.ok (some "инјуриј".data) := by
    rw [toCyrillic_plain "injurij".data "in\u200Cjurij".data (by decide) (by decide) (by decide)
          (by
            rw [hde_hit3 5 "injurij" (njPats.drop 6) "injurij".data "in\u200Cjurij".data
              (tbl_misses 'd' 'j' djPats "injurij".data dj_keys (by decide))
              (tbl_misses 'd' 'ž' dzPats "injurij".data dz_keys (by decide))
              rfl (by decide) (by decide)
              (tbl_misses 'n' 'j' (njPats.drop 6) "in\u200Cjurij".data
                (fun p hp => nj_keys p (List.mem_of_mem_drop hp)) (by decide))]
            rfl)
          (by decide)]
    rfl
  exact noMergedChar_eval _ _ _ _ h (by decide) (by decide)


theorem c6nj6 : noMergedChar "kenjon" 'њ' 'Њ' = true := by
  have h : toCyrillic "kenjon".data none = Except.ok (some "кенјон".data) := by
    rw [toCyrillic_plain "kenjon".data "ken\u200Cjon".data (by decide) (by decide) (by decide)
          (by
            rw [hde_hit3 6 "kenjon" (njPats.drop 7) "kenjon".data "ken\u200Cjon".data
              (tbl_misses 'd' 'j' djPats "kenjon".data dj_keys (by decide))
              (tbl_misses 'd' 'ž' dzPats "kenjon".data dz_keys (by decide))
              rfl (by decide) (by decide)
              (tbl_misses 'n' 'j' (njPats.drop 7) "ken\u200Cjon".data
                (fun p hp => nj_keys p (List.mem_of_mem_drop hp)) (by decide))]
            rfl)
          (by decide)]
    rfl
  exact noMergedChar_eval _ _ _ _ h (by decide) (by decide)


theorem c6nj7 : noMergedChar "konjug" 'њ' 'Њ' = true := by
  have h : toCyrillic "konjug".data none = Except.ok (some "конјуг".data) := by
    rw [toCyrillic_plain "konjug".data "kon\u200Cjug".data (by decide) (by decide) (by decide)
          (by
            rw [hde_hit3 7 "konjug" (njPats.drop 8) "konjug".data "kon\u200Cjug".data
              (tbl_misses 'd' 'j' djPats "konjug".data dj_keys (by decide))
              (tbl_misses 'd' 'ž' dzPats "konjug".data dz_keys (by decide))
              rfl (by decide) (by decide)
              (tbl_misses 'n' 'j' (njPats.drop 8) "kon\u200Cjug".data
                (fun p hp => nj_keys p (List.mem_of_mem_drop hp)) (by decide))]
            rfl)
          (by decide)]
    rfl
  exact noMergedChar_eval _ _ _ _ h (by decide) (by decide)


theorem c6nj8 : noMergedChar "konjunk" 'њ' 'Њ' = true := by
  have h : toCyrillic "konjunk".data none = Except.ok (some "конјунк".data) := by
    rw [toCyrillic_plain "konjunk".data "kon\u200Cjunk".data (by decide) (by decide) (by decide)
          (by
            rw [hde_hit3 8 "konjunk" (njPats.drop 9) "konjunk".data "kon\u200Cjunk".data
              (tbl_misses 'd' 'j' djPats "konjunk".data dj_keys (by decide))
              (tbl_misses 'd' 'ž' dzPats "konjunk".data dz_keys (by decide))
              rfl (by decide) (by decide)
              (tbl_misses 'n' 'j' (njPats.drop 9) "kon\u200Cjunk".data
                (fun p hp => nj_keys p (List.mem_of_mem_drop hp)) (by decide))]
            rfl)
          (by decide)]
    rfl
  exact noMergedChar_eval _ _ _ _ h (by decide) (by decide)


theorem c6nj9 : noMergedChar "nekonjug" 'њ' 'Њ' = true := by
  have h : toCyrillic "nekonjug".data none = Except.ok (some "неконјуг".data) := by
    rw [toCyrillic_plain "nekonjug".data "nekon\u200Cjug".data (by decide) (by decide) (by decide)
          (by
            rw [hde_hit3 7 "konjug" (njPats.drop 8) "nekonjug".data "nekon\u200Cjug".data
              (tbl_misses 'd' 'j' djPats "nekonjug".data dj_keys (by decide))
              (tbl_misses 'd' 'ž' dzPats "nekonjug".data dz_keys (by decide))
              rfl (by decide) (by decide)
              (tbl_misses 'n' 'j' (njPats.drop 8) "nekon\u200Cjug".data
                (fun p hp => nj_keys p (List.mem_of_mem_drop hp)) (by decide))]
            rfl)
          (by decide)]
    rfl
  exact noMergedChar_eval _ _ _ _ h (by decide) (by decide)


theorem c6nj10 : noMergedChar "nekonjunk" 'њ' 'Њ' = true := by
  have h : toCyrillic "nekonjunk".data none = Except.ok (some "неконјунк".data) := by
    rw [toCyrillic_plain "nekonjunk".data "nekon\u200Cjunk".data (by decide) (by decide) (by decide)
          (by
            rw [hde_hit3 8 "konjunk" (njPats.drop 9) "nekonjunk".data "nekon\u200Cjunk".data
              (tbl_misses 'd' 'j' djPats "nekonjunk".data dj_keys (by decide))
              (tbl_misses 'd' 'ž' dzPats "nekonjunk".data dz_keys (by decide))
              rfl (by decide) (by decide)
              (tbl_misses 'n' 'j' (njPats.drop 9) "nekon\u200Cjunk".data
                (fun p hp => nj_keys p (List.mem_of_mem_drop hp)) (by decide))]
            rfl)
          (by decide)]
    rfl
  exact noMergedChar_eval _ _ _ _ h (by decide) (by decide)


theorem c6nj11 : noMergedChar "ssrnj" 'њ' 'Њ' = true := by
  have h : toCyrillic "ssrnj".data none = Except.ok (some "ссрнј".data) := by
    rw [toCyrillic_plain "ssrnj".data "ssrn\u200Cj".data (by decide) (by decide) (by decide)
          (by
            rw [hde_hit3 11 "ssrnj" (njPats.drop 12) "ssrnj".data "ssrn\u200Cj".data
              (tbl_misses 'd' 'j' djPats "ssrnj".data dj_keys (by decide))
              (tbl_misses 'd' 'ž' dzPats "ssrnj".data dz_keys (by decide))
              rfl (by decide) (by decide)
              (tbl_misses 'n' 'j' (njPats.drop 12) "ssrn\u200Cj".data
                (fun p hp => nj_keys p (List.mem_of_mem_drop hp)) (by decide))]
            rfl)
          (by decide)]
    rfl
  exact noMergedChar_eval _ _ _ _ h (by decide) (by decide)


theorem c6nj12 : noMergedChar "tanjug" 'њ' 'Њ' = true := by
  have h : toCyrillic "tanjug".data none = Except.ok (some "танјуг".data) := by
    rw [toCyrillic_plain "tanjug".data "tan\u200Cjug".data (by decide) (by decide) (by decide)
          (by
            rw [hde_hit3 12 "tanjug" (njPats.drop 13) "tanjug".data "tan\u200Cjug".data
              (tbl_misses 'd' 'j' djPats "tanjug".data dj_keys (by decide))
              (tbl_misses 'd' 'ž' dzPats "tanjug".data dz_keys (by decide))
              rfl (by decide) (by decide)
              (tbl_misses 'n' 'j' (njPats.drop 13) "tan\u200Cjug".data
                (fun p hp => nj_keys p (List.mem_of_mem_drop hp)) (by decide))]
            rfl)
          (by decide)]
    rfl
  exact noMergedChar_eval _ _ _ _ h (by decide) (by decide)


theorem c6nj13 : noMergedChar "vanjezičk" 'њ' 'Њ' = true := by
  have h : toCyrillic "vanjezičk".data none = Except.ok (some "ванјезичк".data) := by
    rw [toCyrillic_plain "vanjezičk".data "van\u200Cjezičk".data (by decide) (by decide) (by decide)
          (by
            rw [hde_hit3 13 "vanjezičk" (njPats.drop 14) "vanjezičk".data "van\u200Cjezičk".data
              (tbl_misses 'd' 'j' djPats "vanjezičk".data dj_keys (by decide))
              (tbl_misses 'd' 'ž' dzPats "vanjezičk".data dz_keys (by decide))
              rfl (by decide) (by decide)
              (tbl_misses 'n' 'j' (njPats.drop 14) "van\u200Cjezičk".data
                (fun p hp => nj_keys p (List.mem_of_mem_drop hp)) (by decide))]
            rfl)
          (by decide)]
    rfl
  exact noMergedChar_eval _ _ _ _ h (by decide) (by decide)


/-- The adjektiv equation of C6, through the staged pipeline evaluation. -/
theorem c6x_adjektiv : toCyrillic "adjektiv".data none = Except.ok (some "адјектив".data) := by
  rw [toCyrillic_plain "adjektiv".data "ad\u200Cjektiv".data (by decide) (by decide) (by decide)
          (by
            rw [hde_hit1 0 "adjektiv" (djPats.drop 1) "adjektiv".data "ad\u200Cjektiv".data
              rfl (by decide) (by decide)
              (tbl_misses 'd' 'j' (djPats.drop 1) "ad\u200Cjektiv".data
                (fun p hp => dj_keys p (List.mem_of_mem_drop hp)) (by decide))
              (tbl_misses 'd' 'ž' dzPats "ad\u200Cjektiv".data dz_keys (by decide))
              (tbl_misses 'n' 'j' njPats "ad\u200Cjektiv".data nj_keys (by decide))]
            rfl)
          (by decide)]
  rfl


/-- The nadživeti equation of C6, through the staged pipeline evaluation. -/
theorem c6x_nadziveti : toCyrillic "nadživeti".data none = Except.ok (some "надживети".data) := by
  rw [toCyrillic_plain "nadživeti".data "nad\u200Cživeti".data (by decide) (by decide) (by decide)
          (by
            rw [hde_hit2 6 "nadživ" (dzPats.drop 7) "nadživeti".data "nad\u200Cživeti".data
              (tbl_misses 'd' 'j' djPats "nadživeti".data dj_keys (by decide))
              rfl (by decide) (by decide)
              (tbl_misses 'd' 'ž' (dzPats.drop 7) "nad\u200Cživeti".data
                (fun p hp => dz_keys p (List.mem_of_mem_drop hp)) (by decide))
              (tbl_misses 'n' 'j' njPats "nad\u200Cživeti".data nj_keys (by decide))]
            rfl)
          (by decide)]
  rfl


/-- C6: the digraph-exception law. Concretely `toCyrillic "adjektiv"` keeps
`дј` as two letters and `toCyrillic "nadživeti"` keeps `дж` as two letters;
moreover, for every word of the `dž` exception table the conversion contains
no merged `џ`/`Џ`, and for every word of the `nj` exception table it contains
no merged `њ`/`Њ` (the `dj` digraph has no merged Cyrillic form in
`digraphRegexps` at all, so its entries cannot be merged by construction). -/
theorem claim_C6 :
    toCyrillic "adjektiv".data none = Except.ok (some "адјектив".data)
  ∧ toCyrillic "nadživeti".data none = Except.ok (some "надживети".data)
  ∧ dzPats.all (fun p => noMergedChar p 'џ' 'Џ') = true
  ∧ njPats.all (fun p => noMergedChar p 'њ' 'Њ') = true := by
  refine ⟨c6x_adjektiv, c6x_nadziveti, ?_, ?_⟩
  · simp only [dzPats, List.all_cons, List.all_nil,
      c6dz0, c6dz1, c6dz2, c6dz3, c6dz4, c6dz5, c6dz6, c6dz7, c6dz8, c6dz9, c6dz10, c6dz11, c6dz12, c6dz13, c6dz14, c6dz15, c6dz16, c6dz17, c6dz18, c6dz19, c6dz20, c6dz21, c6dz22, c6dz23, c6dz24, c6dz25, c6dz26, c6dz27, c6dz28, c6dz29,
      Bool.and_true, Bool.and_self]
  · simp only [njPats, List.all_cons, List.all_nil,
      c6nj0, c6nj1, c6nj2, c6nj3, c6nj4, c6nj5, c6nj6, c6nj7, c6nj8, c6nj9, c6nj10, c6nj11, c6nj12, c6nj13,
      Bool.and_true, Bool.and_self]

end SerbianTransliteration


